import Mathlib

/-!
Verification of the FloHub recurring-events expander
(`src/expand_recurring_events.py`) against its natural-language spec.

The Python code is shallowly embedded:
* Python values that can appear in calendar records are modelled by `Value`
  (strings, ints, booleans, `None`); an event record (a JSON object) is an
  association list `ER` with first-match lookup, like a Python dict.
* `datetime` values are modelled as the number of microseconds since
  0001-01-01T00:00:00 (a `Nat`), which is exactly the information a naive
  Python `datetime` carries; the valid range is years 1 to 9999.
* Raised exceptions are modelled with `Except Unit`; `uuid.uuid4()` draws are
  modelled by an explicit stream `r : Nat -> String` of 8-character suffixes
  together with a counter that every call advances (including the call hidden
  in the eagerly evaluated default argument of `dict.get` on line 102).
* Logging (`print`) is a side effect with no influence on the data flow and is
  not modelled.
-/

set_option autoImplicit false

/-- A Python value as it can appear in a calendar event record. -/
inductive Value where
  | vstr (s : String)
  | vint (n : Int)
  | vbool (b : Bool)
  | vnull
deriving DecidableEq

/-- Python truthiness of a `Value` (`bool(v)`). -/
def truthy : Value → Bool
  | .vstr s => !(s = "")
  | .vint n => !(n = 0)
  | .vbool b => b
  | .vnull => false

/-- An event record: a string-keyed mapping, as an association list. -/
def ER : Type := List (String × Value)

instance : DecidableEq ER := inferInstanceAs (DecidableEq (List (String × Value)))

/-- `d[k]` / `d.get(k)`: first binding of key `k`. -/
def lookupER (e : ER) (k : String) : Option Value :=
  match e with
  | [] => none
  | (k', v) :: rest => if k' = k then some v else lookupER rest k

/-- `d.get(k, default)`. -/
def lookupD (e : ER) (k : String) (d : Value) : Value :=
  (lookupER e k).getD d

/-- `d[k] = v`: replace the binding of `k` in place, or append it. -/
def setField : ER → String → Value → ER
  | [], k, v => [(k, v)]
  | (k', v') :: rest, k, v =>
      if k' = k then (k, v) :: rest else (k', v') :: setField rest k v

/-- ASCII lowering of one character, as `str.lower` acts on the ASCII range
(the records in scope use only ASCII field values). -/
def lowerChar (c : Char) : Char :=
  if 'A' ≤ c ∧ c ≤ 'Z' then Char.ofNat (c.toNat + 32) else c

/-- `s.lower()` on ASCII text. -/
def lowerStr (s : String) : String := ⟨s.data.map lowerChar⟩

/-- `str(v)` for the values that can appear in a record. -/
def pyStr : Value → String
  | .vstr s => s
  | .vint n => toString n
  | .vbool b => if b then "True" else "False"
  | .vnull => "None"

/-- The string carried by a `vstr`; only applied to values already known to
be strings. -/
def strOfValue : Value → String
  | .vstr s => s
  | _ => ""

/-! ## Calendar arithmetic (the semantics of Python `datetime`) -/

/-- The Gregorian leap-year rule used by `datetime`. -/
def isLeap (y : Nat) : Bool := (y % 4 = 0 && !(y % 100 = 0)) || y % 400 = 0

/-- Number of days in month `mo` of year `y` (0 for an invalid month). -/
def daysInMonth (y mo : Nat) : Nat :=
  match mo with
  | 1 => 31
  | 2 => if isLeap y then 29 else 28
  | 3 => 31
  | 4 => 30
  | 5 => 31
  | 6 => 30
  | 7 => 31
  | 8 => 31
  | 9 => 30
  | 10 => 31
  | 11 => 30
  | 12 => 31
  | _ => 0

/-- Number of days in year `y`. -/
def daysInYear (y : Nat) : Nat := if isLeap y then 366 else 365

/-- Days from 0001-01-01 to the first day of year `y` (the closed form of
`datetime`'s proleptic-Gregorian ordinal). -/
def daysBeforeYear (y : Nat) : Nat :=
  365 * (y - 1) + (y - 1) / 4 - (y - 1) / 100 + (y - 1) / 400

/-- Days from the first day of year `y` to the first day of its month `mo`
(CPython's `_DAYS_BEFORE_MONTH` table plus the leap adjustment; the row for
13 closes the year). -/
def daysBeforeMonth (y : Nat) (mo : Nat) : Nat :=
  (match mo with
   | 1 => 0
   | 2 => 31
   | 3 => 59
   | 4 => 90
   | 5 => 120
   | 6 => 151
   | 7 => 181
   | 8 => 212
   | 9 => 243
   | 10 => 273
   | 11 => 304
   | 12 => 334
   | 13 => 365
   | _ => 0) + (if 2 < mo && isLeap y then 1 else 0)

/-- Day ordinal (0-based, from 0001-01-01) of the calendar date `y-mo-d`. -/
def daysOfDate (y mo d : Nat) : Nat :=
  daysBeforeYear y + daysBeforeMonth y mo + (d - 1)

def usecsPerDay : Nat := 86400000000

/-- Total day count of the representable range (years 1..9999). -/
def maxDays : Nat := daysBeforeYear 10000

/-- One past the largest representable instant, in microseconds. -/
def maxMicros : Nat := maxDays * usecsPerDay

/-- The calendar fields of a `datetime`. -/
structure DTf where
  y : Nat
  mo : Nat
  d : Nat
  h : Nat
  mi : Nat
  s : Nat
  us : Nat
deriving DecidableEq

/-- A valid `datetime` field tuple (what `datetime(y,mo,d,h,mi,s,us)` accepts). -/
def validDT (f : DTf) : Prop :=
  1 ≤ f.y ∧ f.y ≤ 9999 ∧ 1 ≤ f.mo ∧ f.mo ≤ 12 ∧ 1 ≤ f.d ∧ f.d ≤ daysInMonth f.y f.mo ∧
  f.h < 24 ∧ f.mi < 60 ∧ f.s < 60 ∧ f.us < 1000000

instance (f : DTf) : Decidable (validDT f) := by unfold validDT; infer_instance

/-- Microsecond instant of a field tuple. -/
def toMicros (f : DTf) : Nat :=
  daysOfDate f.y f.mo f.d * usecsPerDay + ((f.h * 60 + f.mi) * 60 + f.s) * 1000000 + f.us

/-- Linear search for the year containing day ordinal `n`, starting at `y`. -/
def findYear : Nat → Nat → Nat → Nat × Nat
  | 0, y, n => (y, n)
  | fuel + 1, y, n =>
      if n < daysInYear y then (y, n) else findYear fuel (y + 1) (n - daysInYear y)

/-- Linear search for the month (within year `y`) containing year-day `n`. -/
def findMonth : Nat → Nat → Nat → Nat → Nat × Nat
  | 0, _, mo, n => (mo, n)
  | fuel + 1, y, mo, n =>
      if n < daysInMonth y mo then (mo, n) else findMonth fuel y (mo + 1) (n - daysInMonth y mo)

/-- Calendar date of a day ordinal: jump whole 400-year cycles (146097 days
each), then search the at most 400 remaining years and 12 months. -/
def dateOfDays (n : Nat) : Nat × Nat × Nat :=
  let q := n / 146097
  let p := findYear 400 (400 * q + 1) (n - 146097 * q)
  let mq := findMonth 12 p.1 1 p.2
  (p.1, mq.1, mq.2 + 1)

/-- Calendar fields of a microsecond instant. -/
def fromMicros (t : Nat) : DTf :=
  let us := t % 1000000
  let t1 := t / 1000000
  let s := t1 % 60
  let t2 := t1 / 60
  let mi := t2 % 60
  let t3 := t2 / 60
  let h := t3 % 24
  let days := t3 / 24
  let ymd := dateOfDays days
  ⟨ymd.1, ymd.2.1, ymd.2.2, h, mi, s, us⟩

/-! ## Rendering (`strftime`)

`%m %d %H %M %S` are zero-padded to two digits; `%Y` is modelled as
zero-padded to four digits (CPython delegates `%Y` to the platform, where
years below 1000 are platform-dependent; every concrete instant in this
development has a four-digit year). -/

/-- The character of a decimal digit. -/
def digitChar : Nat → Char
  | 0 => '0'
  | 1 => '1'
  | 2 => '2'
  | 3 => '3'
  | 4 => '4'
  | 5 => '5'
  | 6 => '6'
  | 7 => '7'
  | 8 => '8'
  | 9 => '9'
  | _ => '*'

def pad2 (n : Nat) : List Char := [digitChar (n / 10 % 10), digitChar (n % 10)]

def pad4 (n : Nat) : List Char :=
  [digitChar (n / 1000 % 10), digitChar (n / 100 % 10), digitChar (n / 10 % 10), digitChar (n % 10)]

/-- `strftime('%Y-%m-%dT%H:%M:%S')` of a field tuple, as a character list. -/
def renderList (f : DTf) : List Char :=
  pad4 f.y ++ '-' :: pad2 f.mo ++ '-' :: pad2 f.d ++
  'T' :: pad2 f.h ++ ':' :: pad2 f.mi ++ ':' :: pad2 f.s

/-- `current.strftime('%Y-%m-%dT%H:%M:%S')`. -/
def renderDT (t : Nat) : String := ⟨renderList (fromMicros t)⟩

/-- `current.strftime('%Y%m%d')`. -/
def renderYMD (t : Nat) : String :=
  let f := fromMicros t
  ⟨pad4 f.y ++ pad2 f.mo ++ pad2 f.d⟩

/-! ## Parsing (`parse_datetime`, lines 18-42)

`datetime.strptime` compiles each format to a regex that must match the whole
string: `%Y` is exactly four digits; `%m %d %H %M %S` are one or two digits
constrained to the valid range (with no two-digit `00` for `%m`/`%d`); `%f` is
one to six digits, right-padded to microseconds.  A successful match then
builds `datetime(...)`, which raises (failing that format) when the day does
not exist in the month or the year is 0. -/

/-- Value of a decimal digit character (code points 48-57). -/
def readDigit (c : Char) : Option Nat :=
  if 48 ≤ c.toNat ∧ c.toNat ≤ 57 then some (c.toNat - 48) else none

/-- Exactly four digits (`%Y`). -/
def parse4 : List Char → Option (Nat × List Char)
  | a :: b :: c :: d :: rest =>
      match readDigit a, readDigit b, readDigit c, readDigit d with
      | some wa, some wb, some wc, some wd => some ((((wa * 10 + wb) * 10 + wc) * 10 + wd), rest)
      | _, _, _, _ => none
  | _ => none

/-- One or two digits with the regex's allowed two-digit and one-digit value
sets.  The two-digit branch is taken when both characters are digits and the
value is allowed; in the three `strptime` formats every numeric field is
followed by a non-digit or the end, so this greedy rule coincides with the
regex's backtracking behaviour. -/
def readField (allow2 allow1 : Nat → Bool) : List Char → Option (Nat × List Char)
  | [] => none
  | [a] =>
      match readDigit a with
      | some wa => if allow1 wa then some (wa, []) else none
      | none => none
  | a :: b :: rest =>
      match readDigit a, readDigit b with
      | some wa, some wb =>
          if allow2 (wa * 10 + wb) then some (wa * 10 + wb, rest)
          else if allow1 wa then some (wa, b :: rest) else none
      | some wa, none => if allow1 wa then some (wa, b :: rest) else none
      | none, _ => none

def expectChar (c : Char) : List Char → Option (List Char)
  | [] => none
  | x :: rest => if x = c then some rest else none

def monthField : List Char → Option (Nat × List Char) :=
  readField (fun n => 1 ≤ n && n ≤ 12) (fun n => 1 ≤ n && n ≤ 9)

def dayField : List Char → Option (Nat × List Char) :=
  readField (fun n => 1 ≤ n && n ≤ 31) (fun n => 1 ≤ n && n ≤ 9)

def hourField : List Char → Option (Nat × List Char) :=
  readField (fun n => n ≤ 23) (fun _ => true)

def minSecField : List Char → Option (Nat × List Char) :=
  readField (fun n => n ≤ 59) (fun _ => true)

/-- `%Y-%m-%d` prefix shared by all three formats; returns fields and rest. -/
def parseYMD (l : List Char) : Option (Nat × Nat × Nat × List Char) :=
  match parse4 l with
  | none => none
  | some (y, r1) =>
    match expectChar '-' r1 with
    | none => none
    | some r2 =>
      match monthField r2 with
      | none => none
      | some (mo, r3) =>
        match expectChar '-' r3 with
        | none => none
        | some r4 =>
          match dayField r4 with
          | none => none
          | some (d, r5) => some (y, mo, d, r5)

/-- `T%H:%M:%S` segment; returns fields and rest. -/
def parseHMS (l : List Char) : Option (Nat × Nat × Nat × List Char) :=
  match expectChar 'T' l with
  | none => none
  | some r1 =>
    match hourField r1 with
    | none => none
    | some (h, r2) =>
      match expectChar ':' r2 with
      | none => none
      | some r3 =>
        match minSecField r3 with
        | none => none
        | some (mi, r4) =>
          match expectChar ':' r4 with
          | none => none
          | some r5 =>
            match minSecField r5 with
            | none => none
            | some (s, r6) => some (h, mi, s, r6)

/-- The construction check `datetime(y, mo, d, ...)` performs beyond the regex:
the year is nonzero and the day exists in the month. -/
def dtCheck (f : DTf) : Option DTf :=
  if 1 ≤ f.y ∧ f.d ≤ daysInMonth f.y f.mo then some f else none

/-- `%Y-%m-%dT%H:%M:%S`, matching the whole string. -/
def parseFmt1 (l : List Char) : Option DTf :=
  match parseYMD l with
  | none => none
  | some (y, mo, d, r) =>
    match parseHMS r with
    | none => none
    | some (h, mi, s, r2) =>
      match r2 with
      | [] => dtCheck ⟨y, mo, d, h, mi, s, 0⟩
      | _ => none

/-- `%Y-%m-%d`, matching the whole string. -/
def parseFmt2 (l : List Char) : Option DTf :=
  match parseYMD l with
  | none => none
  | some (y, mo, d, r) =>
    match r with
    | [] => dtCheck ⟨y, mo, d, 0, 0, 0, 0⟩
    | _ => none

/-- One to six digits for `%f`, right-padded to microseconds. -/
def parseFrac : List Char → Option Nat
  | [] => none
  | l =>
    let ds := l.map readDigit
    if ds.all Option.isSome ∧ l.length ≤ 6 then
      some ((l.foldl (fun acc c => acc * 10 + ((readDigit c).getD 0)) 0) * 10 ^ (6 - l.length))
    else none

/-- `%Y-%m-%dT%H:%M:%S.%f`, matching the whole string. -/
def parseFmt3 (l : List Char) : Option DTf :=
  match parseYMD l with
  | none => none
  | some (y, mo, d, r) =>
    match parseHMS r with
    | none => none
    | some (h, mi, s, r2) =>
      match r2 with
      | '.' :: fr =>
        match parseFrac fr with
        | none => none
        | some us => dtCheck ⟨y, mo, d, h, mi, s, us⟩
      | _ => none

/-- `c in l` for characters. -/
def hasChar (l : List Char) (c : Char) : Bool :=
  match l with
  | [] => false
  | x :: xs => x = c || hasChar xs c

/-- Timezone preprocessing of `parse_datetime`: keep what precedes the first
`+`, else drop every `Z`. -/
def stripTz (l : List Char) : List Char :=
  if hasChar l '+' then l.takeWhile (fun c => c ≠ '+')
  else if hasChar l 'Z' then l.filter (fun c => c ≠ 'Z') else l

/-- The three formats, in source order. -/
def tryFormats (l : List Char) : Option DTf :=
  match parseFmt1 l with
  | some f => some f
  | none =>
    match parseFmt2 l with
    | some f => some f
    | none => parseFmt3 l

/-- `parse_datetime` on a nonempty string: the parsed instant, or an
exception. -/
def parseStr (s : String) : Option Nat :=
  (tryFormats (stripTz s.data)).map toMicros

/-- `parse_datetime` applied to a record field value: empty-ish values give
`None`; a non-string truthy value raises (`'+' in v` is a `TypeError`);
otherwise the string is parsed or a `ValueError` is raised. -/
def pyParse (v : Value) : Except Unit (Option Nat) :=
  if truthy v then
    match v with
    | .vstr s =>
      match parseStr s with
      | some m => .ok (some m)
      | none => .error ()
    | _ => .error ()
  else .ok none

/-! ## The recurrence expander (`generate_recurring_instances`, lines 44-129) -/

/-- `datetime + timedelta` with the `datetime` range check (`OverflowError`
outside years 1..9999). -/
def addM (t : Nat) (d : Int) : Except Unit Nat :=
  let r : Int := (t : Int) + d
  if 0 ≤ r ∧ r < (maxMicros : Int) then .ok r.toNat else .error ()

/-- `current_date.replace(year := ny, month := nmo)` keeping day and time;
raises when the resulting date is invalid. -/
def pyReplace (t : Nat) (ny nmo : Nat) : Except Unit Nat :=
  let f := fromMicros t
  if 1 ≤ ny ∧ ny ≤ 9999 ∧ 1 ≤ nmo ∧ nmo ≤ 12 ∧ 1 ≤ f.d ∧ f.d ≤ daysInMonth ny nmo then
    .ok (toMicros ⟨ny, nmo, f.d, f.h, f.mi, f.s, f.us⟩)
  else .error ()

/-- Advance `current_date` by one step of the pattern (lines 107-122);
`ok none` means an unknown pattern (warning and `break`). -/
def stepPat (pat : String) (t : Nat) : Except Unit (Option Nat) :=
  if pat = "weekly" then (addM t (7 * 86400000000 : Int)).map some
  else if pat = "daily" then (addM t (86400000000 : Int)).map some
  else if pat = "monthly" then
    let f := fromMicros t
    if f.mo = 12 then (pyReplace t (f.y + 1) 1).map some
    else (pyReplace t f.y (f.mo + 1)).map some
  else if pat = "yearly" then
    let f := fromMicros t
    (pyReplace t (f.y + 1) f.mo).map some
  else .ok none

/-- The timezone literal captured from the master's `startTime`
(lines 82-87): the segment after the first `+` (up to a second `+`), else
`Z`, else the default `+00:00`. -/
def tzSuffix (s : String) : String :=
  if hasChar s.data '+' then
    ⟨'+' :: ((s.data.dropWhile (fun c => c ≠ '+')).tail.takeWhile (fun c => c ≠ '+'))⟩
  else if hasChar s.data 'Z' then "Z"
  else "+00:00"

/-- `title.lower().replace(' ', '_')`. -/
def slug (t : String) : String :=
  ⟨(t.data.map lowerChar).map (fun c => if c = ' ' then '_' else c)⟩

/-- The instance record after the two time overwrites of lines 89-90. -/
def instBase (e : ER) (tzs : String) (cur instEnd : Nat) : ER :=
  setField (setField e "startTime" (.vstr (renderDT cur ++ tzs))) "endTime"
    (.vstr (renderDT instEnd ++ tzs))

/-- The identifier step of lines 92-98: append the occurrence date to a
truthy `iCalUld`, else synthesize one from the title (raising when the title
is a non-string) consuming one uuid draw. -/
def instUid (e : ER) (base : ER) (cur : Nat) (r : Nat → String) (k : Nat) :
    Except Unit (ER × Nat) :=
  if truthy (lookupD e "iCalUld" .vnull) then
    .ok (setField base "iCalUld"
          (.vstr (pyStr (lookupD e "iCalUld" .vnull) ++ "_" ++ renderYMD cur)), k)
  else
    match lookupD e "title" (.vstr "event") with
    | .vstr t =>
        .ok (setField base "iCalUld"
              (.vstr (slug t ++ "_" ++ renderYMD cur ++ "_" ++ r k)), k + 1)
    | _ => .error ()

/-- One loop iteration's instance construction (lines 76-102): overwrite the
times, give the instance an identifier, mark it, and stamp the master id
(line 102's `dict.get` default is evaluated eagerly, so it always consumes a
uuid draw).  Returns the instance and the advanced uuid counter, or the
exception the iteration raised. -/
def instBody (e : ER) (tzs : String) (cur : Nat) (durM : Int) (r : Nat → String) (k : Nat) :
    Except Unit (ER × Nat) :=
  match addM cur durM with
  | .error _ => .error ()
  | .ok instEnd =>
    match instUid e (instBase e tzs cur instEnd) cur r k with
    | .error _ => .error ()
    | .ok (i3, k1) =>
      .ok (setField (setField i3 "isRecurringInstance" (.vbool true)) "recurringMasterId"
            (lookupD e "iCalUld" (.vstr ("master_" ++ r k1))), k1 + 1)

/-- The expansion loop (lines 74-122).  `fuel` is `100 - instance_count`;
an exception anywhere in an iteration aborts the whole `try` block, so the
accumulated instances are discarded by the caller. -/
def loopGo (e : ER) (tzs pat : String) (durM : Int) (recEnd : Nat) :
    Nat → Nat → List ER → (Nat → String) → Nat → Except Unit (List ER) × Nat
  | 0, _, acc, _, k => (.ok acc, k)
  | fuel + 1, cur, acc, r, k =>
    if cur ≤ recEnd then
      match instBody e tzs cur durM r k with
      | .error _ => (.error (), k)
      | .ok (inst, k1) =>
        match stepPat pat cur with
        | .error _ => (.error (), k1)
        | .ok none => (.ok (acc ++ [inst]), k1)
        | .ok (some nxt) => loopGo e tzs pat durM recEnd fuel nxt (acc ++ [inst]) r k1
    else (.ok acc, k)

/-- The `try` block of `generate_recurring_instances` (lines 61-125): parse the
three fields, compute the duration and run the loop.  An `error` result is the
exception the caller's `except` turns into a `[master]` pass-through. -/
def tryExpand (e : ER) (pat : String) (r : Nat → String) (k : Nat) :
    Except Unit (List ER) × Nat :=
  let sv := lookupD e "startTime" (.vstr "")
  let ev := lookupD e "endTime" (.vstr "")
  let rv := lookupD e "recurrenceEndDate" (.vstr "")
  match pyParse sv, pyParse ev, pyParse rv with
  | .ok (some st), .ok (some et), .ok (some re) =>
      loopGo e (tzSuffix (strOfValue sv)) pat ((et : Int) - (st : Int)) re 100 st [] r k
  | _, _, _ => (.error (), k)

/-- `generate_recurring_instances` (lines 44-129).  The only exception that
escapes is `.lower()` on a non-string `recurrence` (line 49, before the
`try`). -/
def generate (e : ER) (r : Nat → String) (k : Nat) : Except Unit (List ER) × Nat :=
  match lookupD e "recurrence" (.vstr "") with
  | .vstr s0 =>
    if lowerStr s0 = "none" ∨ lowerStr s0 = "" then (.ok [e], k)
    else if truthy (lookupD e "startTime" (.vstr "")) &&
            truthy (lookupD e "endTime" (.vstr "")) &&
            truthy (lookupD e "recurrenceEndDate" (.vstr "")) then
      match tryExpand e (lowerStr s0) r k with
      | (.ok L, k') => (.ok L, k')
      | (.error _, k') => (.ok [e], k')
    else (.ok [e], k)
  | _ => (.error (), k)

/-- An element of the input collection: a record (dict) or anything else. -/
inductive InEntry where
  | dict (e : ER)
  | nondict
deriving DecidableEq

/-- `expand_calendar_events` (lines 131-155): skip falsy or non-dict entries,
expand recurring records, pass others through. -/
def expandAll : List InEntry → (Nat → String) → Nat → Except Unit (List ER) × Nat
  | [], _, k => (.ok [], k)
  | .nondict :: rest, r, k => expandAll rest r k
  | .dict e :: rest, r, k =>
    if e = ([] : ER) then expandAll rest r k
    else
      match lookupD e "recurrence" (.vstr "") with
      | .vstr s0 =>
        if !(lowerStr s0 = "") && !(lowerStr s0 = "none") then
          match generate e r k with
          | (.ok L, k1) =>
            match expandAll rest r k1 with
            | (.ok L2, k2) => (.ok (L ++ L2), k2)
            | (.error u, k2) => (.error u, k2)
          | (.error u, k1) => (.error u, k1)
        else
          match expandAll rest r k with
          | (.ok L2, k2) => (.ok (e :: L2), k2)
          | (.error u, k2) => (.error u, k2)
      | _ => (.error (), k)

/-! ## The source extractor (`main`, lines 184-214)

`json.loads` is an external collaborator: `extract` returns exactly the text
the Python code hands to `json.loads` (or the `ValueError` raised when no
boundary marker is found).  Returning the embedded array text verbatim is
what "an equivalent parsed array" means at this level. -/

/-- Python `str.strip` whitespace (ASCII). -/
def pySpace (c : Char) : Bool :=
  c = ' ' || c = '\t' || c = '\n' || c = '\r' || c = '\x0b' || c = '\x0c'

/-- `content.strip().startswith('[')`: stripping the tail cannot affect a
head test, so only the leading whitespace matters. -/
def pureBranch (content : List Char) : Bool :=
  match content.dropWhile pySpace with
  | '[' :: _ => true
  | _ => false

/-- The regex `r'},{\"title\":'` matches this literal text. -/
def markerL : List Char := "\x7d,\x7b\"title\":".data

/-- `'[{"title":'`. -/
def pat1L : List Char := "[\x7b\"title\":".data

/-- `',{"title":'`. -/
def pat2L : List Char := ",\x7b\"title\":".data

/-- Index of the first occurrence of `pat` in the text. -/
def firstIdxR (pat : List Char) : List Char → Option Nat
  | [] => none
  | c :: cs =>
      if pat.isPrefixOf (c :: cs) then some 0 else (firstIdxR pat cs).map (· + 1)

/-- Highest occurrence index `≤ n` of `pat` in `text`. -/
def lastIdxAux (pat text : List Char) : Nat → Option Nat
  | 0 => if pat.isPrefixOf text then some 0 else none
  | n + 1 =>
      if pat.isPrefixOf (text.drop (n + 1)) then some (n + 1) else lastIdxAux pat text n

/-- `text.rfind(pat)`: highest occurrence fitting inside `text`. -/
def lastIdx (pat text : List Char) : Option Nat :=
  if pat.length ≤ text.length then lastIdxAux pat text (text.length - pat.length) else none

/-- The bracket-depth scan of lines 200-209: position one past the `]` that
closes the first `[`, or 0 when the depth never returns to zero. -/
def scanEnd : List Char → Nat → Int → Nat
  | [], _, _ => 0
  | c :: cs, i, d =>
      if c = '[' then scanEnd cs (i + 1) (d + 1)
      else if c = ']' then (if d - 1 = 0 then i + 1 else scanEnd cs (i + 1) (d - 1))
      else scanEnd cs (i + 1) d

/-- The extraction logic of `main` (lines 184-214), up to the `json.loads`
call: the text that will be parsed, or the `ValueError` raised when no
boundary marker is found. -/
def extract (content : List Char) : Except Unit (List Char) :=
  if pureBranch content then .ok content
  else
    match firstIdxR markerL content with
    | none => .error ()
    | some m =>
      let window := content.take (m + 10)
      let sp : Option Nat :=
        match lastIdx pat1L window with
        | some p => some p
        | none =>
          match lastIdx pat2L window with
          | some p => some (p + 1)
          | none => none
      let jc :=
        match sp with
        | some p => content.drop p
        | none => content.drop (content.length - 1)
      .ok (jc.take (scanEnd jc 0 0))


/-! ## Record lemmas -/

theorem lookupER_setField_same (e : ER) (k : String) (v : Value) :
    lookupER (setField e k v) k = some v := by
  induction e with
  | nil => simp [setField, lookupER]
  | cons p rest ih =>
    rcases p with ⟨k', v'⟩
    by_cases h : k' = k
    · simp [setField, h, lookupER]
    · simp [setField, h, lookupER, ih]

theorem lookupER_setField_other (e : ER) (k k2 : String) (v : Value) (hk : k2 ≠ k) :
    lookupER (setField e k v) k2 = lookupER e k2 := by
  have hk' : ¬ (k = k2) := fun h => hk h.symm
  induction e with
  | nil => simp [setField, lookupER, hk']
  | cons p rest ih =>
    rcases p with ⟨k', v'⟩
    by_cases h : k' = k
    · have h2 : ¬ (k' = k2) := by rw [h]; exact hk'
      rw [show setField ((k', v') :: rest) k v = (k, v) :: rest by simp [setField, h]]
      simp [lookupER, h2, hk']
    · rw [show setField ((k', v') :: rest) k v = (k', v') :: setField rest k v by
        simp [setField, h]]
      by_cases h2 : k' = k2 <;> simp [lookupER, h2, ih]

theorem lookupD_setField_same (e : ER) (k : String) (v d : Value) :
    lookupD (setField e k v) k d = v := by
  simp [lookupD, lookupER_setField_same]

theorem lookupD_setField_other (e : ER) (k k2 : String) (v d : Value) (hk : k2 ≠ k) :
    lookupD (setField e k v) k2 d = lookupD e k2 d := by
  simp [lookupD, lookupER_setField_other e k k2 v hk]

/-! ## Calendar lemmas -/

theorem daysInYear_pos (y : Nat) : 0 < daysInYear y := by
  unfold daysInYear; split <;> omega

theorem isLeap_iff (y : Nat) :
    isLeap y = true ↔ ((y % 4 = 0 ∧ ¬ (y % 100 = 0)) ∨ y % 400 = 0) := by
  unfold isLeap
  simp

set_option maxHeartbeats 2000000 in
theorem dBY_succ (y : Nat) (hy : 1 ≤ y) :
    daysBeforeYear (y + 1) = daysBeforeYear y + daysInYear y := by
  unfold daysBeforeYear
  rcases Bool.eq_false_or_eq_true (isLeap y) with hb | hb
  · have hp : (y % 4 = 0 ∧ ¬ (y % 100 = 0)) ∨ y % 400 = 0 := (isLeap_iff y).mp hb
    have hdy : daysInYear y = 366 := by unfold daysInYear; rw [hb]; simp
    rw [hdy]
    omega
  · have hp : ¬ ((y % 4 = 0 ∧ ¬ (y % 100 = 0)) ∨ y % 400 = 0) := by
      rw [← isLeap_iff, hb]; simp
    have hdy : daysInYear y = 365 := by unfold daysInYear; rw [hb]; simp
    rw [hdy]
    push_neg at hp
    omega

theorem dBY_le_succ (y : Nat) : daysBeforeYear y ≤ daysBeforeYear (y + 1) := by
  rcases Nat.eq_zero_or_pos y with rfl | hy
  · simp [daysBeforeYear]
  · rw [dBY_succ y hy]; omega

theorem dBY_mono {y z : Nat} (h : y ≤ z) : daysBeforeYear y ≤ daysBeforeYear z := by
  induction z with
  | zero =>
    have : y = 0 := by omega
    subst this; exact Nat.le_refl _
  | succ m ih =>
    rcases Nat.lt_or_ge y (m + 1) with h2 | h2
    · exact le_trans (ih (by omega)) (dBY_le_succ m)
    · have : y = m + 1 := by omega
      subst this; exact Nat.le_refl _

theorem findYear_spec (fuel : Nat) : ∀ (y n : Nat), 1 ≤ y →
    n < daysBeforeYear (y + fuel) - daysBeforeYear y →
    daysBeforeYear (findYear fuel y n).1 + (findYear fuel y n).2 = daysBeforeYear y + n ∧
    (findYear fuel y n).2 < daysInYear (findYear fuel y n).1 ∧
    y ≤ (findYear fuel y n).1 := by
  induction fuel with
  | zero =>
    intro y n _ hn
    simp only [Nat.add_zero] at hn
    omega
  | succ fuel ih =>
    intro y n hy hn
    rcases Nat.lt_or_ge n (daysInYear y) with h | h
    · unfold findYear
      rw [if_pos h]
      exact ⟨rfl, h, Nat.le_refl y⟩
    · unfold findYear
      rw [if_neg (by omega)]
      have hs : daysBeforeYear (y + 1) = daysBeforeYear y + daysInYear y := dBY_succ y hy
      have hs2 : y + 1 + fuel = y + (fuel + 1) := by omega
      have hmono : daysBeforeYear y ≤ daysBeforeYear (y + (fuel + 1)) := dBY_mono (by omega)
      have hpre : n - daysInYear y <
          daysBeforeYear (y + 1 + fuel) - daysBeforeYear (y + 1) := by
        rw [hs2, hs]; omega
      have := ih (y + 1) (n - daysInYear y) (by omega) hpre
      rcases this with ⟨h1, h2, h3⟩
      exact ⟨by omega, h2, by omega⟩

theorem dBM_one (y : Nat) : daysBeforeMonth y 1 = 0 := rfl

theorem dBM_succ (y mo : Nat) (h1 : 1 ≤ mo) (h2 : mo ≤ 12) :
    daysBeforeMonth y (mo + 1) = daysBeforeMonth y mo + daysInMonth y mo := by
  rcases Bool.eq_false_or_eq_true (isLeap y) with hb | hb <;>
    interval_cases mo <;> simp [daysBeforeMonth, daysInMonth, hb]

theorem dBM_13 (y : Nat) : daysBeforeMonth y 13 = daysInYear y := by
  rcases Bool.eq_false_or_eq_true (isLeap y) with hb | hb <;>
    simp [daysBeforeMonth, daysInYear, hb]

theorem dBM_le_succ (y mo : Nat) (h2 : mo ≤ 12) :
    daysBeforeMonth y mo ≤ daysBeforeMonth y (mo + 1) := by
  rcases Nat.eq_zero_or_pos mo with rfl | hmo
  · simp [daysBeforeMonth]
  · rw [dBM_succ y mo hmo h2]; omega

theorem dBM_mono (y : Nat) {mo mo2 : Nat} (h : mo ≤ mo2) (h13 : mo2 ≤ 13) :
    daysBeforeMonth y mo ≤ daysBeforeMonth y mo2 := by
  induction mo2 with
  | zero =>
    have : mo = 0 := by omega
    subst this; exact Nat.le_refl _
  | succ m ih =>
    rcases Nat.lt_or_ge mo (m + 1) with h2 | h2
    · exact le_trans (ih (by omega) (by omega)) (dBM_le_succ y m (by omega))
    · have : mo = m + 1 := by omega
      subst this; exact Nat.le_refl _

theorem findMonth_spec (fuel : Nat) : ∀ (y mo n : Nat), 1 ≤ mo → mo + fuel ≤ 13 →
    n < daysBeforeMonth y (mo + fuel) - daysBeforeMonth y mo →
    daysBeforeMonth y (findMonth fuel y mo n).1 + (findMonth fuel y mo n).2 =
      daysBeforeMonth y mo + n ∧
    (findMonth fuel y mo n).2 < daysInMonth y (findMonth fuel y mo n).1 ∧
    mo ≤ (findMonth fuel y mo n).1 ∧ (findMonth fuel y mo n).1 < mo + fuel := by
  induction fuel with
  | zero =>
    intro y mo n _ _ hn
    simp only [Nat.add_zero] at hn
    omega
  | succ fuel ih =>
    intro y mo n hmo h13 hn
    rcases Nat.lt_or_ge n (daysInMonth y mo) with h | h
    · unfold findMonth
      rw [if_pos h]
      exact ⟨rfl, h, Nat.le_refl mo, by omega⟩
    · unfold findMonth
      rw [if_neg (by omega)]
      have hs : daysBeforeMonth y (mo + 1) = daysBeforeMonth y mo + daysInMonth y mo :=
        dBM_succ y mo hmo (by omega)
      have hs2 : mo + 1 + fuel = mo + (fuel + 1) := by omega
      have hmono : daysBeforeMonth y mo ≤ daysBeforeMonth y (mo + (fuel + 1)) :=
        dBM_mono y (by omega) (by omega)
      have hpre : n - daysInMonth y mo <
          daysBeforeMonth y (mo + 1 + fuel) - daysBeforeMonth y (mo + 1) := by
        rw [hs2, hs]; omega
      have := ih y (mo + 1) (n - daysInMonth y mo) (by omega) (by omega) hpre
      rcases this with ⟨h1, h2, h3, h4⟩
      exact ⟨by omega, h2, by omega, by omega⟩

theorem month_day_bound (y mo d : Nat) (h1 : 1 ≤ mo) (h2 : mo ≤ 12) (h3 : 1 ≤ d)
    (h4 : d ≤ daysInMonth y mo) : daysBeforeMonth y mo + (d - 1) < daysInYear y := by
  rcases Bool.eq_false_or_eq_true (isLeap y) with hb | hb <;>
    interval_cases mo <;>
      simp [daysBeforeMonth, daysInMonth, daysInYear, hb] at h4 ⊢ <;> omega

set_option maxHeartbeats 1000000 in
theorem dBY_400 (q : Nat) : daysBeforeYear (400 * q + 1) = 146097 * q := by
  unfold daysBeforeYear; omega

set_option maxHeartbeats 1000000 in
theorem dBY_401 (q : Nat) : daysBeforeYear (400 * q + 401) = 146097 * q + 146097 := by
  unfold daysBeforeYear; omega

theorem maxDays_val : maxDays = 3652059 := by decide

theorem dateOfDays_spec (n : Nat) (hn : n < maxDays) :
    1 ≤ (dateOfDays n).1 ∧ (dateOfDays n).1 ≤ 9999 ∧
    1 ≤ (dateOfDays n).2.1 ∧ (dateOfDays n).2.1 ≤ 12 ∧
    1 ≤ (dateOfDays n).2.2 ∧ (dateOfDays n).2.2 ≤ daysInMonth (dateOfDays n).1 (dateOfDays n).2.1 ∧
    daysOfDate (dateOfDays n).1 (dateOfDays n).2.1 (dateOfDays n).2.2 = n := by
  unfold dateOfDays
  simp only []
  set q := n / 146097 with hq
  have hqle : 146097 * q ≤ n := by omega
  have hqlt : n - 146097 * q < 146097 := by omega
  have h400 : daysBeforeYear (400 * q + 1) = 146097 * q := dBY_400 q
  have h401 : daysBeforeYear (400 * q + 1 + 400) = 146097 * q + 146097 := by
    have h := dBY_401 q
    have he : 400 * q + 1 + 400 = 400 * q + 401 := by omega
    rw [he]; exact h
  have hpre : n - 146097 * q <
      daysBeforeYear (400 * q + 1 + 400) - daysBeforeYear (400 * q + 1) := by
    rw [h400, h401]; omega
  have hy := findYear_spec 400 (400 * q + 1) (n - 146097 * q) (by omega) hpre
  set p := findYear 400 (400 * q + 1) (n - 146097 * q) with hp
  obtain ⟨hy1, hy2, hy3⟩ := hy
  have hydays : daysBeforeYear p.1 + p.2 = n := by rw [h400] at hy1; omega
  have hy9999 : p.1 ≤ 9999 := by
    by_contra hcon
    push_neg at hcon
    have hm := dBY_mono (show 10000 ≤ p.1 by omega)
    have hmx : maxDays = daysBeforeYear 10000 := rfl
    have hle : daysBeforeYear p.1 ≤ n := by omega
    omega
  have hmpre : p.2 < daysBeforeMonth p.1 (1 + 12) - daysBeforeMonth p.1 1 := by
    have he : (1 : Nat) + 12 = 13 := rfl
    rw [he, dBM_13, dBM_one]
    omega
  have hm := findMonth_spec 12 p.1 1 p.2 (by omega) (by omega) hmpre
  set mq := findMonth 12 p.1 1 p.2 with hmq
  obtain ⟨hm1, hm2, hm3, hm4⟩ := hm
  rw [dBM_one] at hm1
  refine ⟨by omega, hy9999, by omega, by omega, by omega, by omega, ?_⟩
  unfold daysOfDate
  omega

theorem toMicros_lt (f : DTf) (hf : validDT f) : toMicros f < maxMicros := by
  obtain ⟨h1, h2, h3, h4, h5, h6, h7, h8, h9, h10⟩ := hf
  have hdate : daysOfDate f.y f.mo f.d < maxDays := by
    have hb := month_day_bound f.y f.mo f.d h3 h4 h5 h6
    have hsucc := dBY_succ f.y h1
    have hmono : daysBeforeYear (f.y + 1) ≤ daysBeforeYear 10000 := dBY_mono (by omega)
    have hmx : maxDays = daysBeforeYear 10000 := rfl
    unfold daysOfDate
    omega
  unfold toMicros maxMicros usecsPerDay
  omega

theorem fromMicros_spec (t : Nat) (ht : t < maxMicros) :
    validDT (fromMicros t) ∧ toMicros (fromMicros t) = t ∧ (fromMicros t).us = t % 1000000 := by
  have hmx : maxMicros = 3652059 * 86400000000 := by
    unfold maxMicros usecsPerDay; rw [maxDays_val]
  have hdays : t / 1000000 / 60 / 60 / 24 < maxDays := by
    rw [maxDays_val]; rw [hmx] at ht; omega
  obtain ⟨g1, g2, g3, g4, g5, g6, g7⟩ := dateOfDays_spec (t / 1000000 / 60 / 60 / 24) hdays
  refine ⟨⟨g1, g2, g3, g4, g5, g6, Nat.mod_lt _ (by omega), Nat.mod_lt _ (by omega),
    Nat.mod_lt _ (by omega), Nat.mod_lt _ (by omega)⟩, ?_, rfl⟩
  show daysOfDate (dateOfDays (t / 1000000 / 60 / 60 / 24)).1
      (dateOfDays (t / 1000000 / 60 / 60 / 24)).2.1
      (dateOfDays (t / 1000000 / 60 / 60 / 24)).2.2 * usecsPerDay +
    ((t / 1000000 / 60 / 60 % 24 * 60 + t / 1000000 / 60 % 60) * 60 + t / 1000000 % 60) * 1000000 +
    t % 1000000 = t
  rw [g7]
  unfold usecsPerDay
  omega

/-! ## Render / parse round-trip -/


theorem readDigit_digitChar (k : Nat) (hk : k < 10) : readDigit (digitChar k) = some k := by
  interval_cases k <;> decide

theorem digitChar_not_special (k : Nat) (hk : k < 10) :
    digitChar k ≠ '+' ∧ digitChar k ≠ 'Z' := by
  interval_cases k <;> exact ⟨by decide, by decide⟩

theorem parse4_pad4 (y : Nat) (hy : y < 10000) (r : List Char) :
    parse4 (pad4 y ++ r) = some (y, r) := by
  show parse4 (digitChar (y / 1000 % 10) :: digitChar (y / 100 % 10) ::
    digitChar (y / 10 % 10) :: digitChar (y % 10) :: r) = some (y, r)
  have d1 := readDigit_digitChar (y / 1000 % 10) (by omega)
  have d2 := readDigit_digitChar (y / 100 % 10) (by omega)
  have d3 := readDigit_digitChar (y / 10 % 10) (by omega)
  have d4 := readDigit_digitChar (y % 10) (by omega)
  simp only [parse4, d1, d2, d3, d4]
  have hv : ((y / 1000 % 10 * 10 + y / 100 % 10) * 10 + y / 10 % 10) * 10 + y % 10 = y := by
    omega
  rw [hv]

theorem readField_pad2 (al2 al1 : Nat → Bool) (n : Nat) (hn : n < 100) (h2 : al2 n = true)
    (r : List Char) : readField al2 al1 (pad2 n ++ r) = some (n, r) := by
  show readField al2 al1 (digitChar (n / 10 % 10) :: digitChar (n % 10) :: r) = some (n, r)
  have d1 := readDigit_digitChar (n / 10 % 10) (by omega)
  have d2 := readDigit_digitChar (n % 10) (by omega)
  have hv : n / 10 % 10 * 10 + n % 10 = n := by omega
  simp only [readField, d1, d2, hv, h2, if_true, ite_true]
theorem expectChar_cons (c : Char) (r : List Char) : expectChar c (c :: r) = some r := by
  simp [expectChar]

theorem dIM_le_31 (y mo : Nat) : daysInMonth y mo ≤ 31 := by
  unfold daysInMonth
  split <;> first | omega | (split <;> omega)

theorem parseYMD_render (y mo d : Nat) (hy : y < 10000) (hmo1 : 1 ≤ mo) (hmo : mo ≤ 12)
    (hd1 : 1 ≤ d) (hd : d ≤ 31) (r : List Char) :
    parseYMD (pad4 y ++ '-' :: (pad2 mo ++ '-' :: (pad2 d ++ r))) = some (y, mo, d, r) := by
  unfold parseYMD
  rw [parse4_pad4 y hy]
  simp only []
  rw [expectChar_cons]
  simp only []
  unfold monthField
  rw [readField_pad2 _ _ mo (by omega) (by simp [hmo1, hmo])]
  simp only []
  rw [expectChar_cons]
  simp only []
  unfold dayField
  rw [readField_pad2 _ _ d (by omega) (by simp [hd1, hd])]

theorem parseHMS_render (h mi s : Nat) (hh : h < 24) (hmi : mi < 60) (hs : s < 60)
    (r : List Char) :
    parseHMS ('T' :: (pad2 h ++ ':' :: (pad2 mi ++ ':' :: (pad2 s ++ r)))) = some (h, mi, s, r) := by
  unfold parseHMS
  rw [expectChar_cons]
  simp only []
  unfold hourField
  rw [readField_pad2 _ _ h (by omega) (by simp; omega)]
  simp only []
  rw [expectChar_cons]
  simp only []
  unfold minSecField
  rw [readField_pad2 _ _ mi (by omega) (by simp; omega)]
  simp only []
  rw [expectChar_cons]
  simp only []
  rw [readField_pad2 _ _ s (by omega) (by simp; omega)]

theorem renderList_norm (f : DTf) :
    renderList f = pad4 f.y ++ '-' :: (pad2 f.mo ++ '-' :: (pad2 f.d ++
      'T' :: (pad2 f.h ++ ':' :: (pad2 f.mi ++ ':' :: (pad2 f.s ++ []))))) := by
  simp [renderList]

theorem parseFmt1_render (f : DTf) (hf : validDT f) :
    parseFmt1 (renderList f) = some ⟨f.y, f.mo, f.d, f.h, f.mi, f.s, 0⟩ := by
  obtain ⟨h1, h2, h3, h4, h5, h6, h7, h8, h9, h10⟩ := hf
  have hd31 : f.d ≤ 31 := le_trans h6 (dIM_le_31 f.y f.mo)
  rw [renderList_norm]
  unfold parseFmt1
  rw [parseYMD_render f.y f.mo f.d (by omega) h3 h4 h5 hd31]
  simp only []
  rw [parseHMS_render f.h f.mi f.s h7 h8 h9]
  simp only []
  unfold dtCheck
  rw [if_pos ⟨h1, h6⟩]
theorem digitChar_all (k : Nat) : digitChar k ≠ '+' ∧ digitChar k ≠ 'Z' := by
  unfold digitChar
  split <;> exact ⟨by decide, by decide⟩

theorem renderList_chars (f : DTf) : ∀ c ∈ renderList f, c ≠ '+' ∧ c ≠ 'Z' := by
  intro c hc
  simp only [renderList, pad4, pad2, List.mem_append, List.mem_cons, List.mem_singleton,
    List.not_mem_nil, or_false] at hc
  casesm* _ ∨ _ <;> subst_vars <;>
    first
      | exact digitChar_all _
      | exact ⟨by decide, by decide⟩

theorem hasChar_append (a b : List Char) (c : Char) :
    hasChar (a ++ b) c = (hasChar a c || hasChar b c) := by
  induction a with
  | nil => simp [hasChar]
  | cons x xs ih => simp [hasChar, ih, Bool.or_assoc]

theorem hasChar_false (l : List Char) (c : Char) (h : ∀ x ∈ l, x ≠ c) : hasChar l c = false := by
  induction l with
  | nil => rfl
  | cons x xs ih =>
    simp only [hasChar, Bool.or_eq_false_iff]
    exact ⟨by simp [h x (by simp)], ih (fun y hy => h y (by simp [hy]))⟩

theorem takeWhile_append_all (p : Char → Bool) (a b : List Char) (h : ∀ x ∈ a, p x = true) :
    (a ++ b).takeWhile p = a ++ b.takeWhile p := by
  induction a with
  | nil => simp
  | cons x xs ih =>
    simp only [List.cons_append, List.takeWhile_cons, h x (by simp), if_true]
    rw [ih (fun y hy => h y (by simp [hy]))]

theorem stripTz_render_tz (f : DTf) (tz : List Char)
    (htz : (∃ rest, tz = '+' :: rest) ∨ tz = ['Z']) :
    stripTz (renderList f ++ tz) = renderList f := by
  have hchars := renderList_chars f
  rcases htz with ⟨rest, rfl⟩ | rfl
  · unfold stripTz
    have hplus : hasChar (renderList f ++ '+' :: rest) '+' = true := by
      rw [hasChar_append]
      simp [hasChar]
    rw [if_pos hplus]
    rw [takeWhile_append_all _ _ _ (fun x hx => by simp [(hchars x hx).1])]
    simp [List.takeWhile_cons]
  · unfold stripTz
    have hplus : hasChar (renderList f ++ ['Z']) '+' = false := by
      rw [hasChar_append]
      rw [hasChar_false _ _ (fun x hx => (hchars x hx).1)]
      simp [hasChar]
    rw [if_neg (by simp [hplus])]
    have hz : hasChar (renderList f ++ ['Z']) 'Z' = true := by
      rw [hasChar_append]
      simp [hasChar]
    rw [if_pos hz]
    rw [List.filter_append]
    rw [List.filter_eq_self.mpr (fun x hx => by simp [(hchars x hx).2])]
    simp

theorem tryFormats_render (f : DTf) (hf : validDT f) :
    tryFormats (renderList f) = some ⟨f.y, f.mo, f.d, f.h, f.mi, f.s, 0⟩ := by
  unfold tryFormats
  rw [parseFmt1_render f hf]

theorem tzSuffix_shape (s : String) :
    (∃ rest, (tzSuffix s).data = '+' :: rest) ∨ (tzSuffix s).data = ['Z'] := by
  unfold tzSuffix
  split
  · exact Or.inl ⟨_, rfl⟩
  · split
    · exact Or.inr rfl
    · exact Or.inl ⟨"00:00".data, rfl⟩

theorem parse_render_roundtrip (t : Nat) (ht : t < maxMicros) (tzs : String)
    (htz : (∃ rest, tzs.data = '+' :: rest) ∨ tzs.data = ['Z']) :
    pyParse (.vstr (renderDT t ++ tzs)) = .ok (some (t / 1000000 * 1000000)) := by
  obtain ⟨hvalid, hinv, hus⟩ := fromMicros_spec t ht
  have hdata : (renderDT t ++ tzs).data = renderList (fromMicros t) ++ tzs.data :=
    String.data_append _ _
  have hne : ¬ ((renderDT t ++ tzs) = "") := by
    intro hc
    have := congrArg String.data hc
    rw [hdata] at this
    simp [renderList, pad4] at this
  have htruthy : truthy (.vstr (renderDT t ++ tzs)) = true := by
    simp [truthy, hne]
  have hps : parseStr (renderDT t ++ tzs) = some (t / 1000000 * 1000000) := by
    unfold parseStr
    rw [hdata]
    rw [stripTz_render_tz (fromMicros t) tzs.data htz]
    rw [tryFormats_render (fromMicros t) hvalid]
    rw [Option.map_some']
    refine congrArg some ?_
    have h0 : toMicros ⟨(fromMicros t).y, (fromMicros t).mo, (fromMicros t).d, (fromMicros t).h,
        (fromMicros t).mi, (fromMicros t).s, 0⟩ + (fromMicros t).us = toMicros (fromMicros t) := by
      unfold toMicros
      simp
    rw [hus] at h0
    rw [hinv] at h0
    omega
  unfold pyParse
  rw [if_pos htruthy]
  simp only []
  rw [hps]

/-! ## Loop and expander lemmas -/



theorem addM_spec (t : Nat) (d : Int) (x : Nat) (h : addM t d = .ok x) :
    (x : Int) = (t : Int) + d ∧ x < maxMicros := by
  simp only [addM] at h
  split at h
  · rename_i hcond
    simp only [Except.ok.injEq] at h
    subst h
    constructor
    · exact Int.toNat_of_nonneg hcond.1
    · have := hcond.2
      have h2 := Int.toNat_of_nonneg hcond.1
      omega
  · exact absurd h (by simp)

theorem loopGo_len_le (e : ER) (tzs pat : String) (durM : Int) (recEnd : Nat) :
    ∀ (fuel cur : Nat) (acc : List ER) (r : Nat → String) (k : Nat) (L : List ER),
    (loopGo e tzs pat durM recEnd fuel cur acc r k).1 = .ok L →
    L.length ≤ acc.length + fuel ∧ acc.length ≤ L.length := by
  intro fuel
  induction fuel with
  | zero =>
    intro cur acc r k L h
    unfold loopGo at h
    simp only [Except.ok.injEq] at h
    subst h
    omega
  | succ fuel ih =>
    intro cur acc r k L h
    unfold loopGo at h
    split at h
    · split at h
      · simp at h
      · split at h
        · simp at h
        · simp at h
          subst h
          simp only [List.length_append, List.length_cons, List.length_nil]
          omega
        · have := ih _ _ _ _ L h
          simp only [List.length_append, List.length_cons, List.length_nil] at this
          omega
    · simp only [Except.ok.injEq] at h
      subst h
      omega

/-- Shape of a loop-produced instance: its two timestamps are the renderings
of a pair of instants one duration apart. -/
def instOk (tzs : String) (durM : Int) (inst : ER) : Prop :=
  ∃ cur instEnd, cur < maxMicros ∧ addM cur durM = .ok instEnd ∧
    lookupER inst "startTime" = some (.vstr (renderDT cur ++ tzs)) ∧
    lookupER inst "endTime" = some (.vstr (renderDT instEnd ++ tzs))

theorem instUid_shape' (e base : ER) (cur : Nat) (r : Nat → String) (k : Nat) (i3 : ER)
    (k1 : Nat) (h : instUid e base cur r k = .ok (i3, k1)) :
    ∃ v, i3 = setField base "iCalUld" (.vstr v) := by
  unfold instUid at h
  split at h
  · simp only [Except.ok.injEq, Prod.mk.injEq] at h
    exact ⟨_, h.1.symm⟩
  · split at h
    · simp only [Except.ok.injEq, Prod.mk.injEq] at h
      exact ⟨_, h.1.symm⟩
    · simp at h

theorem lookupER_instBase_start (e : ER) (tzs : String) (cur instEnd : Nat) :
    lookupER (instBase e tzs cur instEnd) "startTime" =
      some (.vstr (renderDT cur ++ tzs)) := by
  unfold instBase
  rw [lookupER_setField_other _ _ _ _ (by decide), lookupER_setField_same]

theorem lookupER_instBase_end (e : ER) (tzs : String) (cur instEnd : Nat) :
    lookupER (instBase e tzs cur instEnd) "endTime" =
      some (.vstr (renderDT instEnd ++ tzs)) := by
  unfold instBase
  rw [lookupER_setField_same]

theorem instBody_fields (e : ER) (tzs : String) (cur : Nat) (durM : Int) (r : Nat → String)
    (k : Nat) (inst : ER) (k1 : Nat) (hcur : cur < maxMicros)
    (h : instBody e tzs cur durM r k = .ok (inst, k1)) : instOk tzs durM inst := by
  unfold instBody at h
  split at h
  · simp at h
  · rename_i instEnd heq
    split at h
    · simp at h
    · rename_i i3 k1' heq2
      obtain ⟨v, hv⟩ := instUid_shape' _ _ _ _ _ _ _ heq2
      simp only [Except.ok.injEq, Prod.mk.injEq] at h
      refine ⟨cur, instEnd, hcur, heq, ?_, ?_⟩
      · rw [← h.1]
        rw [lookupER_setField_other _ _ _ _ (by decide),
            lookupER_setField_other _ _ _ _ (by decide), hv,
            lookupER_setField_other _ _ _ _ (by decide), lookupER_instBase_start]
      · rw [← h.1]
        rw [lookupER_setField_other _ _ _ _ (by decide),
            lookupER_setField_other _ _ _ _ (by decide), hv,
            lookupER_setField_other _ _ _ _ (by decide), lookupER_instBase_end]

theorem pyReplace_bound (t ny nmo x : Nat) (ht : t < maxMicros)
    (h : pyReplace t ny nmo = .ok x) : x < maxMicros := by
  obtain ⟨hvalid, hinv, hus⟩ := fromMicros_spec t ht
  simp only [pyReplace] at h
  split at h
  · rename_i hcond
    simp only [Except.ok.injEq] at h
    subst h
    apply toMicros_lt
    obtain ⟨v1, v2, v3, v4, v5, v6, v7, v8, v9, v10⟩ := hvalid
    exact ⟨hcond.1, hcond.2.1, hcond.2.2.1, hcond.2.2.2.1, hcond.2.2.2.2.1,
      hcond.2.2.2.2.2, v7, v8, v9, v10⟩
  · simp at h

theorem stepPat_bound (pat : String) (cur nxt : Nat) (hcur : cur < maxMicros)
    (h : stepPat pat cur = .ok (some nxt)) : nxt < maxMicros := by
  simp only [stepPat] at h
  split at h
  · cases haddm : addM cur (7 * 86400000000 : Int) with
    | error u => rw [haddm] at h; simp [Except.map] at h
    | ok x =>
      rw [haddm] at h
      simp [Except.map] at h
      subst h
      exact (addM_spec _ _ _ haddm).2
  · split at h
    · cases haddm : addM cur (86400000000 : Int) with
      | error u => rw [haddm] at h; simp [Except.map] at h
      | ok x =>
        rw [haddm] at h
        simp [Except.map] at h
        subst h
        exact (addM_spec _ _ _ haddm).2
    · split at h
      · split at h
        · cases hrep : pyReplace cur ((fromMicros cur).y + 1) 1 with
          | error u => rw [hrep] at h; simp [Except.map] at h
          | ok x =>
            rw [hrep] at h
            simp [Except.map] at h
            subst h
            exact pyReplace_bound _ _ _ _ hcur hrep
        · cases hrep : pyReplace cur (fromMicros cur).y ((fromMicros cur).mo + 1) with
          | error u => rw [hrep] at h; simp [Except.map] at h
          | ok x =>
            rw [hrep] at h
            simp [Except.map] at h
            subst h
            exact pyReplace_bound _ _ _ _ hcur hrep
      · split at h
        · cases hrep : pyReplace cur ((fromMicros cur).y + 1) (fromMicros cur).mo with
          | error u => rw [hrep] at h; simp [Except.map] at h
          | ok x =>
            rw [hrep] at h
            simp [Except.map] at h
            subst h
            exact pyReplace_bound _ _ _ _ hcur hrep
        · simp at h

theorem loopGo_instOk (e : ER) (tzs pat : String) (durM : Int) (recEnd : Nat) :
    ∀ (fuel cur : Nat) (acc : List ER) (r : Nat → String) (k : Nat) (L : List ER),
    cur < maxMicros → (∀ i ∈ acc, instOk tzs durM i) →
    (loopGo e tzs pat durM recEnd fuel cur acc r k).1 = .ok L →
    ∀ i ∈ L, instOk tzs durM i := by
  intro fuel
  induction fuel with
  | zero =>
    intro cur acc r k L hcur hacc h
    unfold loopGo at h
    simp only [Except.ok.injEq] at h
    subst h
    exact hacc
  | succ fuel ih =>
    intro cur acc r k L hcur hacc h
    unfold loopGo at h
    split at h
    · split at h
      · simp at h
      · rename_i inst k1 hbody
        split at h
        · simp at h
        · simp at h
          subst h
          intro i hi
          rcases List.mem_append.mp hi with hi | hi
          · exact hacc i hi
          · rw [List.mem_singleton.mp hi]
            exact instBody_fields _ _ _ _ _ _ _ _ hcur hbody
        · rename_i nxt hstep
          refine ih _ _ _ _ L (stepPat_bound _ _ _ hcur hstep) ?_ h
          intro i hi
          rcases List.mem_append.mp hi with hi | hi
          · exact hacc i hi
          · rw [List.mem_singleton.mp hi]
            exact instBody_fields _ _ _ _ _ _ _ _ hcur hbody
    · simp only [Except.ok.injEq] at h
      subst h
      exact hacc

theorem readDigit_le (c : Char) (w : Nat) (h : readDigit c = some w) : w ≤ 9 := by
  unfold readDigit at h
  split at h
  · rename_i hc
    simp only [Option.some.injEq] at h
    omega
  · simp at h

theorem parse4_lt (l : List Char) (y : Nat) (r : List Char) (h : parse4 l = some (y, r)) :
    y < 10000 := by
  unfold parse4 at h
  split at h
  · rename_i a b c d rest
    split at h
    · rename_i wa wb wc wd ha hb hc hd
      simp only [Option.some.injEq, Prod.mk.injEq] at h
      have := readDigit_le a wa ha
      have := readDigit_le b wb hb
      have := readDigit_le c wc hc
      have := readDigit_le d wd hd
      omega
    · simp at h
  · simp at h

theorem readField_bound (al2 al1 : Nat → Bool) (l : List Char) (n : Nat) (r : List Char)
    (h : readField al2 al1 l = some (n, r)) :
    al2 n = true ∨ (al1 n = true ∧ n ≤ 9) := by
  unfold readField at h
  split at h
  · simp at h
  · rename_i a
    split at h
    · rename_i wa ha
      split at h
      · simp only [Option.some.injEq, Prod.mk.injEq] at h
        right
        rename_i hal1
        exact ⟨h.1 ▸ hal1, h.1 ▸ readDigit_le a wa ha⟩
      · simp at h
    · simp at h
  · rename_i a b rest
    split at h
    · rename_i wa wb ha hb
      split at h
      · rename_i hal2
        simp only [Option.some.injEq, Prod.mk.injEq] at h
        left
        exact h.1 ▸ hal2
      · split at h
        · rename_i hal1
          simp only [Option.some.injEq, Prod.mk.injEq] at h
          right
          exact ⟨h.1 ▸ hal1, h.1 ▸ readDigit_le a wa ha⟩
        · simp at h
    · rename_i wa ha hb
      split at h
      · rename_i hal1
        simp only [Option.some.injEq, Prod.mk.injEq] at h
        right
        exact ⟨h.1 ▸ hal1, h.1 ▸ readDigit_le a wa ha⟩
      · simp at h
    · simp at h

theorem monthField_bound (l : List Char) (n : Nat) (r : List Char)
    (h : monthField l = some (n, r)) : 1 ≤ n ∧ n ≤ 12 := by
  rcases readField_bound _ _ _ _ _ h with h2 | ⟨h1, h9⟩
  · simp at h2; omega
  · simp at h1; omega

theorem dayField_bound (l : List Char) (n : Nat) (r : List Char)
    (h : dayField l = some (n, r)) : 1 ≤ n ∧ n ≤ 31 := by
  rcases readField_bound _ _ _ _ _ h with h2 | ⟨h1, h9⟩
  · simp at h2; omega
  · simp at h1; omega

theorem hourField_bound (l : List Char) (n : Nat) (r : List Char)
    (h : hourField l = some (n, r)) : n ≤ 23 := by
  rcases readField_bound _ _ _ _ _ h with h2 | ⟨h1, h9⟩
  · simp at h2; omega
  · omega

theorem minSecField_bound (l : List Char) (n : Nat) (r : List Char)
    (h : minSecField l = some (n, r)) : n ≤ 59 := by
  rcases readField_bound _ _ _ _ _ h with h2 | ⟨h1, h9⟩
  · simp at h2; omega
  · omega

theorem parseYMD_bounds (l : List Char) (y mo d : Nat) (r : List Char)
    (h : parseYMD l = some (y, mo, d, r)) :
    y < 10000 ∧ 1 ≤ mo ∧ mo ≤ 12 ∧ 1 ≤ d ∧ d ≤ 31 := by
  unfold parseYMD at h
  split at h
  · simp at h
  · rename_i y' r1 h4
    split at h
    · simp at h
    · rename_i r2 hdash
      split at h
      · simp at h
      · rename_i mo' r3 hmo
        split at h
        · simp at h
        · rename_i r4 hdash2
          split at h
          · simp at h
          · rename_i d' r5 hd
            simp only [Option.some.injEq, Prod.mk.injEq] at h
            obtain ⟨hy, hmo2, hd2, hr⟩ := h
            subst hy; subst hmo2; subst hd2
            have := parse4_lt _ _ _ h4
            have := monthField_bound _ _ _ hmo
            have := dayField_bound _ _ _ hd
            omega

theorem parseHMS_bounds (l : List Char) (hh mi s : Nat) (r : List Char)
    (h : parseHMS l = some (hh, mi, s, r)) : hh ≤ 23 ∧ mi ≤ 59 ∧ s ≤ 59 := by
  unfold parseHMS at h
  split at h
  · simp at h
  · rename_i r1 hT
    split at h
    · simp at h
    · rename_i h' r2 hhour
      split at h
      · simp at h
      · rename_i r3 hcolon
        split at h
        · simp at h
        · rename_i mi' r4 hmin
          split at h
          · simp at h
          · rename_i r5 hcolon2
            split at h
            · simp at h
            · rename_i s' r6 hsec
              simp only [Option.some.injEq, Prod.mk.injEq] at h
              obtain ⟨hhh, hmi2, hs2, hr⟩ := h
              subst hhh; subst hmi2; subst hs2
              have := hourField_bound _ _ _ hhour
              have := minSecField_bound _ _ _ hmin
              have := minSecField_bound _ _ _ hsec
              omega

theorem foldl_digits_lt (l : List Char) : ∀ acc : Nat,
    l.foldl (fun acc c => acc * 10 + ((readDigit c).getD 0)) acc < (acc + 1) * 10 ^ l.length := by
  induction l with
  | nil => intro acc; simp
  | cons c cs ih =>
    intro acc
    simp only [List.foldl_cons, List.length_cons]
    have hd : (readDigit c).getD 0 ≤ 9 := by
      cases hr : readDigit c with
      | none => simp
      | some w => simpa using readDigit_le c w hr
    calc cs.foldl (fun acc c => acc * 10 + ((readDigit c).getD 0)) (acc * 10 + (readDigit c).getD 0)
        < (acc * 10 + (readDigit c).getD 0 + 1) * 10 ^ cs.length := ih _
      _ ≤ (acc + 1) * 10 ^ (cs.length + 1) := by
          have h2 : acc * 10 + (readDigit c).getD 0 + 1 ≤ (acc + 1) * 10 := by omega
          have h3 := Nat.mul_le_mul_right (10 ^ cs.length) h2
          calc (acc * 10 + (readDigit c).getD 0 + 1) * 10 ^ cs.length
              ≤ ((acc + 1) * 10) * 10 ^ cs.length := h3
            _ = (acc + 1) * 10 ^ (cs.length + 1) := by ring

theorem parseFrac_lt (l : List Char) (us : Nat) (h : parseFrac l = some us) : us < 1000000 := by
  cases l with
  | nil => simp [parseFrac] at h
  | cons c cs =>
    simp only [parseFrac] at h
    split at h
    · rename_i hcond
      simp only [Option.some.injEq] at h
      have hlen : (c :: cs).length ≤ 6 := hcond.2
      have hval := foldl_digits_lt (c :: cs) 0
      rw [Nat.one_mul] at hval
      have hmul : ((c :: cs).foldl (fun acc c => acc * 10 + ((readDigit c).getD 0)) 0) *
          10 ^ (6 - (c :: cs).length) < 10 ^ (c :: cs).length * 10 ^ (6 - (c :: cs).length) :=
        (Nat.mul_lt_mul_right (Nat.pos_pow_of_pos _ (by omega))).mpr hval
      rw [← pow_add] at hmul
      have he : (c :: cs).length + (6 - (c :: cs).length) = 6 := by omega
      rw [he] at hmul
      have h6 : (10 : Nat) ^ 6 = 1000000 := by norm_num
      rw [h6] at hmul
      omega
    · simp at h

theorem dtCheck_some (f f' : DTf) (h : dtCheck f = some f') :
    f' = f ∧ 1 ≤ f.y ∧ f.d ≤ daysInMonth f.y f.mo := by
  unfold dtCheck at h
  split at h
  · rename_i hc
    simp only [Option.some.injEq] at h
    exact ⟨h.symm, hc.1, hc.2⟩
  · simp at h

theorem parseFmt1_valid (l : List Char) (f : DTf) (h : parseFmt1 l = some f) : validDT f := by
  unfold parseFmt1 at h
  split at h
  · simp at h
  · rename_i y mo d r hymd
    split at h
    · simp at h
    · rename_i hh mi s r2 hhms
      split at h
      · obtain ⟨hf, hy1, hd⟩ := dtCheck_some _ _ h
        subst hf
        have hb1 := parseYMD_bounds _ _ _ _ _ hymd
        have hb2 := parseHMS_bounds _ _ _ _ _ hhms
        unfold validDT
        dsimp only
        dsimp only at hy1 hd
        exact ⟨by omega, by omega, by omega, by omega, by omega, hd, by omega, by omega,
          by omega, by omega⟩
      · simp at h

theorem parseFmt2_valid (l : List Char) (f : DTf) (h : parseFmt2 l = some f) : validDT f := by
  unfold parseFmt2 at h
  split at h
  · simp at h
  · rename_i y mo d r hymd
    split at h
    · obtain ⟨hf, hy1, hd⟩ := dtCheck_some _ _ h
      subst hf
      have hb1 := parseYMD_bounds _ _ _ _ _ hymd
      unfold validDT
      dsimp only
      dsimp only at hy1 hd
      exact ⟨by omega, by omega, by omega, by omega, by omega, hd, by omega, by omega,
        by omega, by omega⟩
    · simp at h

theorem parseFmt3_valid (l : List Char) (f : DTf) (h : parseFmt3 l = some f) : validDT f := by
  unfold parseFmt3 at h
  split at h
  · simp at h
  · rename_i y mo d r hymd
    split at h
    · simp at h
    · rename_i hh mi s r2 hhms
      split at h
      · rename_i fr
        split at h
        · simp at h
        · rename_i us hfr
          obtain ⟨hf, hy1, hd⟩ := dtCheck_some _ _ h
          subst hf
          have hb1 := parseYMD_bounds _ _ _ _ _ hymd
          have hb2 := parseHMS_bounds _ _ _ _ _ hhms
          have hb3 := parseFrac_lt _ _ hfr
          unfold validDT
          dsimp only
          dsimp only at hy1 hd hb3
          exact ⟨by omega, by omega, by omega, by omega, by omega, hd, by omega, by omega,
            by omega, hb3⟩
      · simp at h

theorem tryFormats_valid (l : List Char) (f : DTf) (h : tryFormats l = some f) : validDT f := by
  unfold tryFormats at h
  split at h
  · rename_i h1
    simp only [Option.some.injEq] at h
    exact h ▸ parseFmt1_valid _ _ h1
  · split at h
    · rename_i h2
      simp only [Option.some.injEq] at h
      exact h ▸ parseFmt2_valid _ _ h2
    · exact parseFmt3_valid _ _ h

theorem parseStr_bound (s : String) (m : Nat) (h : parseStr s = some m) : m < maxMicros := by
  unfold parseStr at h
  cases htf : tryFormats (stripTz s.data) with
  | none => rw [htf] at h; simp at h
  | some f =>
    rw [htf] at h
    simp only [Option.map_some', Option.some.injEq] at h
    exact h ▸ toMicros_lt f (tryFormats_valid _ _ htf)

theorem pyParse_some (v : Value) (m : Nat) (h : pyParse v = .ok (some m)) :
    m < maxMicros ∧ ∃ s, v = .vstr s ∧ truthy v = true ∧ parseStr s = some m := by
  unfold pyParse at h
  split at h
  · rename_i htr
    split at h
    · rename_i s
      split at h
      · rename_i m' hps
        simp only [Except.ok.injEq, Option.some.injEq] at h
        subst h
        exact ⟨parseStr_bound _ _ hps, s, rfl, htr, hps⟩
      · simp at h
    all_goals simp at h
  · simp at h

theorem loopGo_stop (e : ER) (tzs pat : String) (durM : Int) (recEnd : Nat) (fuel cur : Nat)
    (acc : List ER) (r : Nat → String) (k : Nat) (hc : ¬ (cur ≤ recEnd)) :
    loopGo e tzs pat durM recEnd fuel cur acc r k = (.ok acc, k) := by
  cases fuel with
  | zero => rfl
  | succ fuel =>
    unfold loopGo
    rw [if_neg hc]

theorem loopGo_pos (e : ER) (tzs pat : String) (durM : Int) (recEnd : Nat) (fuel cur : Nat)
    (r : Nat → String) (k : Nat) (L : List ER) (hc : cur ≤ recEnd)
    (h : (loopGo e tzs pat durM recEnd (fuel + 1) cur [] r k).1 = .ok L) : 1 ≤ L.length := by
  unfold loopGo at h
  rw [if_pos hc] at h
  split at h
  · simp at h
  · split at h
    · simp at h
    · simp at h
      subst h
      simp
    · have := (loopGo_len_le e tzs pat durM recEnd fuel _ _ _ _ L h).2
      simp at this
      omega

theorem tryExpand_ok (e : ER) (pat : String) (r : Nat → String) (k : Nat) (L : List ER) (k' : Nat)
    (h : tryExpand e pat r k = (.ok L, k')) :
    ∃ st et re, pyParse (lookupD e "startTime" (.vstr "")) = .ok (some st) ∧
      pyParse (lookupD e "endTime" (.vstr "")) = .ok (some et) ∧
      pyParse (lookupD e "recurrenceEndDate" (.vstr "")) = .ok (some re) ∧
      loopGo e (tzSuffix (strOfValue (lookupD e "startTime" (.vstr "")))) pat
        ((et : Int) - (st : Int)) re 100 st [] r k = (.ok L, k') := by
  simp only [tryExpand] at h
  split at h
  · rename_i st et re hst het hre
    exact ⟨st, et, re, hst, het, hre, h⟩
  all_goals simp at h


/-- The re-parsed duration an instance record carries: the difference of its
re-parsed `endTime` and `startTime`, when both parse. -/
def reDiff (inst : ER) : Option Int :=
  match pyParse (lookupD inst "startTime" .vnull), pyParse (lookupD inst "endTime" .vnull) with
  | .ok (some a), .ok (some b) => some ((b : Int) - (a : Int))
  | _, _ => none

theorem instOk_reDiff (tzs : String) (durM : Int) (inst : ER) (sv : Value)
    (htz : tzs = tzSuffix (strOfValue sv)) (hi : instOk tzs durM inst)
    (hdur : durM % 1000000 = 0) : reDiff inst = some durM := by
  obtain ⟨cur, instEnd, hcur, haddm, hst, het⟩ := hi
  obtain ⟨hadd1, hadd2⟩ := addM_spec _ _ _ haddm
  have htzs : (∃ rest, tzs.data = '+' :: rest) ∨ tzs.data = ['Z'] := by
    rw [htz]; exact tzSuffix_shape _
  have hp1 : pyParse (.vstr (renderDT cur ++ tzs)) = .ok (some (cur / 1000000 * 1000000)) :=
    parse_render_roundtrip cur hcur tzs htzs
  have hp2 : pyParse (.vstr (renderDT instEnd ++ tzs)) =
      .ok (some (instEnd / 1000000 * 1000000)) :=
    parse_render_roundtrip instEnd hadd2 tzs htzs
  unfold reDiff
  rw [show lookupD inst "startTime" .vnull = .vstr (renderDT cur ++ tzs) by
        unfold lookupD; rw [hst]; rfl,
      show lookupD inst "endTime" .vnull = .vstr (renderDT instEnd ++ tzs) by
        unfold lookupD; rw [het]; rfl,
      hp1, hp2]
  simp only [Option.some.injEq]
  omega


/-- `v` parses to an instant only when it is a truthy string. -/
theorem truthy_of_parse (v : Value) (m : Nat) (h : pyParse v = .ok (some m)) :
    truthy v = true :=
  (pyParse_some v m h).2.choose_spec.2.1

theorem addM_exact (st et : Nat) (het : et < maxMicros) :
    addM st ((et : Int) - (st : Int)) = .ok et := by
  unfold addM
  rw [if_pos (by constructor <;> omega)]
  simp only [Except.ok.injEq]
  omega

/-- Whether line 92-98's identifier construction cannot raise: the master has
a truthy `iCalUld`, or its `title` (defaulting to `"event"`) is a string. -/
def idSafe (e : ER) : Bool :=
  truthy (lookupD e "iCalUld" .vnull) ||
    (match lookupD e "title" (.vstr "event") with
     | .vstr _ => true
     | _ => false)

theorem instBody_eq_truthy (e : ER) (tzs : String) (cur instEnd : Nat) (durM : Int)
    (r : Nat → String) (k : Nat) (haddm : addM cur durM = .ok instEnd)
    (htr : truthy (lookupD e "iCalUld" .vnull) = true) :
    instBody e tzs cur durM r k = .ok (setField (setField (setField (instBase e tzs cur instEnd)
      "iCalUld" (.vstr (pyStr (lookupD e "iCalUld" .vnull) ++ "_" ++ renderYMD cur)))
      "isRecurringInstance" (.vbool true)) "recurringMasterId"
      (lookupD e "iCalUld" (.vstr ("master_" ++ r k))), k + 1) := by
  unfold instBody instUid
  rw [haddm]
  dsimp only
  rw [if_pos htr]

theorem instBody_eq_title (e : ER) (tzs : String) (cur instEnd : Nat) (durM : Int)
    (r : Nat → String) (k : Nat) (t : String) (haddm : addM cur durM = .ok instEnd)
    (htr : truthy (lookupD e "iCalUld" .vnull) = false)
    (hti : lookupD e "title" (.vstr "event") = .vstr t) :
    instBody e tzs cur durM r k = .ok (setField (setField (setField (instBase e tzs cur instEnd)
      "iCalUld" (.vstr (slug t ++ "_" ++ renderYMD cur ++ "_" ++ r k)))
      "isRecurringInstance" (.vbool true)) "recurringMasterId"
      (lookupD e "iCalUld" (.vstr ("master_" ++ r (k + 1)))), k + 2) := by
  unfold instBody instUid
  rw [haddm]
  dsimp only
  rw [if_neg (by simp [htr]), hti]

theorem instBody_ok_of (e : ER) (tzs : String) (cur : Nat) (durM : Int) (r : Nat → String)
    (k : Nat) (instEnd : Nat) (haddm : addM cur durM = .ok instEnd)
    (hsafe : idSafe e = true) :
    ∃ inst k1, instBody e tzs cur durM r k = .ok (inst, k1) ∧
      lookupER inst "isRecurringInstance" = some (.vbool true) ∧
      lookupER inst "startTime" = some (.vstr (renderDT cur ++ tzs)) ∧
      lookupER inst "endTime" = some (.vstr (renderDT instEnd ++ tzs)) := by
  have hlk : ∀ i3 : ER, ∀ v : Value,
      lookupER (setField (setField i3 "isRecurringInstance" (.vbool true))
        "recurringMasterId" v) "isRecurringInstance" = some (.vbool true) := by
    intro i3 v
    rw [lookupER_setField_other _ _ _ _ (by decide), lookupER_setField_same]
  have hst : ∀ instEnd2 : Nat, ∀ v v2 : Value,
      lookupER (setField (setField (setField (instBase e tzs cur instEnd2) "iCalUld" v2)
        "isRecurringInstance" (.vbool true)) "recurringMasterId" v) "startTime" =
        some (.vstr (renderDT cur ++ tzs)) := by
    intro instEnd2 v v2
    rw [lookupER_setField_other _ _ _ _ (by decide),
        lookupER_setField_other _ _ _ _ (by decide),
        lookupER_setField_other _ _ _ _ (by decide), lookupER_instBase_start]
  have hen : ∀ instEnd2 : Nat, ∀ v v2 : Value,
      lookupER (setField (setField (setField (instBase e tzs cur instEnd2) "iCalUld" v2)
        "isRecurringInstance" (.vbool true)) "recurringMasterId" v) "endTime" =
        some (.vstr (renderDT instEnd2 ++ tzs)) := by
    intro instEnd2 v v2
    rw [lookupER_setField_other _ _ _ _ (by decide),
        lookupER_setField_other _ _ _ _ (by decide),
        lookupER_setField_other _ _ _ _ (by decide), lookupER_instBase_end]
  unfold idSafe at hsafe
  rcases Bool.eq_false_or_eq_true (truthy (lookupD e "iCalUld" .vnull)) with htr | htr
  · exact ⟨_, _, instBody_eq_truthy e tzs cur instEnd durM r k haddm htr,
      hlk _ _, hst _ _ _, hen _ _ _⟩
  · have hti : ∃ t, lookupD e "title" (.vstr "event") = .vstr t := by
      rw [htr] at hsafe
      simp only [Bool.false_or] at hsafe
      cases hx : lookupD e "title" (.vstr "event") <;> rw [hx] at hsafe <;> simp at hsafe
      · exact ⟨_, rfl⟩
    obtain ⟨t, hti⟩ := hti
    exact ⟨_, _, instBody_eq_title e tzs cur instEnd durM r k t haddm htr hti,
      hlk _ _, hst _ _ _, hen _ _ _⟩

theorem instBody_rmid (e : ER) (tzs : String) (cur : Nat) (durM : Int) (r : Nat → String)
    (k : Nat) (inst : ER) (k1 : Nat) (v : Value) (hpres : lookupER e "iCalUld" = some v)
    (h : instBody e tzs cur durM r k = .ok (inst, k1)) :
    lookupER inst "recurringMasterId" = some v := by
  unfold instBody at h
  split at h
  · simp at h
  · split at h
    · simp at h
    · simp only [Except.ok.injEq, Prod.mk.injEq] at h
      rw [← h.1, lookupER_setField_same]
      unfold lookupD
      rw [hpres]
      rfl

theorem loopGo_rmid (e : ER) (tzs pat : String) (durM : Int) (recEnd : Nat) (v : Value)
    (hpres : lookupER e "iCalUld" = some v) :
    ∀ (fuel cur : Nat) (acc : List ER) (r : Nat → String) (k : Nat) (L : List ER),
    (∀ i ∈ acc, lookupER i "recurringMasterId" = some v) →
    (loopGo e tzs pat durM recEnd fuel cur acc r k).1 = .ok L →
    ∀ i ∈ L, lookupER i "recurringMasterId" = some v := by
  intro fuel
  induction fuel with
  | zero =>
    intro cur acc r k L hacc h
    unfold loopGo at h
    simp only [Except.ok.injEq] at h
    subst h
    exact hacc
  | succ fuel ih =>
    intro cur acc r k L hacc h
    unfold loopGo at h
    split at h
    · split at h
      · simp at h
      · rename_i inst k1 hbody
        split at h
        · simp at h
        · simp at h
          subst h
          intro i hi
          rcases List.mem_append.mp hi with hi | hi
          · exact hacc i hi
          · rw [List.mem_singleton.mp hi]
            exact instBody_rmid _ _ _ _ _ _ _ _ _ hpres hbody
        · refine ih _ _ _ _ L ?_ h
          intro i hi
          rcases List.mem_append.mp hi with hi | hi
          · exact hacc i hi
          · rw [List.mem_singleton.mp hi]
            exact instBody_rmid _ _ _ _ _ _ _ _ _ hpres hbody
    · simp only [Except.ok.injEq] at h
      subst h
      exact hacc


instance instDecEqExcept {α β : Type} [DecidableEq α] [DecidableEq β] :
    DecidableEq (Except α β) := fun a b =>
  match a, b with
  | .ok x, .ok y =>
    if h : x = y then isTrue (by rw [h]) else isFalse (by simp [h])
  | .error x, .error y =>
    if h : x = y then isTrue (by rw [h]) else isFalse (by simp [h])
  | .ok _, .error _ => isFalse (by simp)
  | .error _, .ok _ => isFalse (by simp)

/-- `recurrence` is absent or a string, so line 49's `.lower()` cannot raise. -/
def recOk (e : ER) : Bool :=
  match lookupER e "recurrence" with
  | none => true
  | some (.vstr _) => true
  | some _ => false

/-- `recurrence` is absent or lowers to `"none"`. -/
def recIsNone (e : ER) : Bool :=
  match lookupER e "recurrence" with
  | none => true
  | some (.vstr s) => lowerStr s = "none"
  | some _ => false

/-- Claim C7: when `recurrence` is absent or case-insensitively `"none"`,
`generate_recurring_instances` returns exactly `[event]`, unchanged, and
consumes no randomness. -/
theorem claim7_test (e : ER) (r : Nat → String) (k : Nat) (h : recIsNone e = true) :
    generate e r k = (.ok [e], k) := by
  unfold recIsNone at h
  unfold generate
  cases hre : lookupER e "recurrence" with
  | none =>
    have hld : lookupD e "recurrence" (.vstr "") = .vstr "" := by unfold lookupD; rw [hre]; rfl
    rw [hld]
    dsimp only
    rw [if_pos (show lowerStr "" = "none" ∨ lowerStr "" = "" from Or.inr (by decide))]
  | some v =>
    rw [hre] at h
    have hld : lookupD e "recurrence" (.vstr "") = v := by unfold lookupD; rw [hre]; rfl
    rw [hld]
    cases v with
    | vstr s =>
      simp only [decide_eq_true_eq] at h
      dsimp only
      rw [if_pos (Or.inl h)]
    | vint n => simp at h
    | vbool b => simp at h
    | vnull => simp at h

theorem gen_total (e : ER) (r : Nat → String) (k : Nat) (hrec : recOk e = true) :
    ∃ L k', generate e r k = (.ok L, k') := by
  unfold recOk at hrec
  unfold generate
  cases hre : lookupER e "recurrence" with
  | none =>
    have hld : lookupD e "recurrence" (.vstr "") = .vstr "" := by unfold lookupD; rw [hre]; rfl
    rw [hld]
    exact ⟨[e], k, by dsimp only; rw [if_pos (show lowerStr "" = "none" ∨ lowerStr "" = "" from Or.inr (by decide))]⟩
  | some v =>
    rw [hre] at hrec
    have hld : lookupD e "recurrence" (.vstr "") = v := by unfold lookupD; rw [hre]; rfl
    rw [hld]
    cases v with
    | vstr s =>
      dsimp only
      by_cases hnone : lowerStr s = "none" ∨ lowerStr s = ""
      · exact ⟨[e], k, by rw [if_pos hnone]⟩
      · rw [if_neg hnone]
        by_cases htru : (truthy (lookupD e "startTime" (.vstr "")) &&
            truthy (lookupD e "endTime" (.vstr "")) &&
            truthy (lookupD e "recurrenceEndDate" (.vstr ""))) = true
        · rw [if_pos htru]
          rcases htry : tryExpand e (lowerStr s) r k with ⟨res, k2⟩
          cases res with
          | ok L2 => exact ⟨L2, k2, rfl⟩
          | error u => exact ⟨[e], k2, rfl⟩
        · rw [if_neg htru]
          exact ⟨[e], k, rfl⟩
    | vint n => simp at hrec
    | vbool b => simp at hrec
    | vnull => simp at hrec

/-- Claim C5: every successful expansion returns at most 100 records: the
`instance_count < 100` guard caps the loop, and the fail-soft paths return the
one-element `[event]`. -/
theorem claim5_test (e : ER) (r : Nat → String) (k : Nat) (L : List ER) (k' : Nat)
    (h : generate e r k = (.ok L, k')) : L.length ≤ 100 := by
  unfold generate at h
  split at h
  · rename_i v s0 hre0
    split at h
    · simp only [Prod.mk.injEq, Except.ok.injEq] at h
      rw [← h.1]
      simp
    · split at h
      · split at h
        · rename_i L2 k2 htry
          simp only [Prod.mk.injEq, Except.ok.injEq] at h
          obtain ⟨st, et, re, _, _, _, hloop⟩ := tryExpand_ok _ _ _ _ _ _ htry
          have hl : (loopGo e (tzSuffix (strOfValue (lookupD e "startTime" (.vstr ""))))
              (lowerStr s0) ((et : Int) - (st : Int)) re 100 st [] r k).1 = .ok L2 := by
            rw [hloop]
          have := (loopGo_len_le _ _ _ _ _ 100 _ _ _ _ _ hl).1
          simp at this
          rw [← h.1]
          omega
        · rename_i k2 htry
          simp only [Prod.mk.injEq, Except.ok.injEq] at h
          rw [← h.1]
          simp
      · simp only [Prod.mk.injEq, Except.ok.injEq] at h
        rw [← h.1]
        simp
  · simp at h

theorem tryExpand_nil (e : ER) (pat : String) (r : Nat → String) (k kf : Nat)
    (h : tryExpand e pat r k = (.ok ([] : List ER), kf)) :
    ∃ st et re, pyParse (lookupD e "startTime" (.vstr "")) = .ok (some st) ∧
      pyParse (lookupD e "endTime" (.vstr "")) = .ok (some et) ∧
      pyParse (lookupD e "recurrenceEndDate" (.vstr "")) = .ok (some re) ∧ re < st := by
  obtain ⟨st, et, re, h1, h2, h3, hloop⟩ := tryExpand_ok _ _ _ _ _ _ h
  refine ⟨st, et, re, h1, h2, h3, ?_⟩
  by_contra hc
  push_neg at hc
  have hloop' : (loopGo e (tzSuffix (strOfValue (lookupD e "startTime" (.vstr "")))) pat
      ((et : Int) - (st : Int)) re (99 + 1) st [] r k).1 = .ok ([] : List ER) := by
    rw [show (99 : Nat) + 1 = 100 from rfl, hloop]
  have := loopGo_pos e _ pat _ re 99 st r k [] hc hloop'
  simp at this

theorem tryExpand_nil_of (e : ER) (pat : String) (r : Nat → String) (k : Nat) (st et re : Nat)
    (h1 : pyParse (lookupD e "startTime" (.vstr "")) = .ok (some st))
    (h2 : pyParse (lookupD e "endTime" (.vstr "")) = .ok (some et))
    (h3 : pyParse (lookupD e "recurrenceEndDate" (.vstr "")) = .ok (some re))
    (hlt : re < st) :
    tryExpand e pat r k = (.ok ([] : List ER), k) := by
  simp only [tryExpand]
  rw [h1, h2, h3]
  exact loopGo_stop _ _ _ _ _ _ _ _ _ _ (by omega)

/-- The condition under which the loop is entered at all. -/
def isRecurring (e : ER) : Prop :=
  ∃ s0, lookupD e "recurrence" (.vstr "") = .vstr s0 ∧
    lowerStr s0 ≠ "none" ∧ lowerStr s0 ≠ ""

/-- Claim C2 (corrected): when `recurrence` is a string the expansion does
return a sequence, but its length can be 0: the returned list is empty exactly
when the three fields parse and the recurrence end lies strictly before the
start, so the loop body never runs (and the empty list is not caught by the
`except`).  A non-string `recurrence` instead raises `AttributeError` out of
the function, which the `recOk` hypothesis excludes. -/
theorem claim2_test (e : ER) (r : Nat → String) (k : Nat) (hrec : recOk e = true) :
    (∃ L, (generate e r k).1 = .ok L) ∧
    ((generate e r k).1 = .ok [] ↔
      (isRecurring e ∧ ∃ st et re,
        pyParse (lookupD e "startTime" (.vstr "")) = .ok (some st) ∧
        pyParse (lookupD e "endTime" (.vstr "")) = .ok (some et) ∧
        pyParse (lookupD e "recurrenceEndDate" (.vstr "")) = .ok (some re) ∧ re < st)) := by
  refine ⟨?_, ?_, ?_⟩
  · obtain ⟨L, k', hg⟩ := gen_total e r k hrec
    exact ⟨L, by rw [hg]⟩
  · intro hnil
    unfold generate at hnil
    split at hnil
    · rename_i v s0 hre0
      split at hnil
      · simp at hnil
      · rename_i hnone
        split at hnil
        · split at hnil
          · rename_i L2 k2 htry
            simp at hnil
            subst hnil
            obtain ⟨st, et, re, p1, p2, p3, hlt⟩ := tryExpand_nil _ _ _ _ _ htry
            refine ⟨⟨s0, hre0, ?_, ?_⟩, st, et, re, p1, p2, p3, hlt⟩
            · intro hx; exact hnone (Or.inl hx)
            · intro hx; exact hnone (Or.inr hx)
          · rename_i k2 htry
            simp at hnil
        · simp at hnil
    · simp at hnil
  · rintro ⟨⟨s0, hre0, hn1, hn2⟩, st, et, re, p1, p2, p3, hlt⟩
    unfold generate
    rw [hre0]
    dsimp only
    rw [if_neg (by push_neg; exact ⟨hn1, hn2⟩)]
    rw [if_pos (by rw [truthy_of_parse _ _ p1, truthy_of_parse _ _ p2, truthy_of_parse _ _ p3]; rfl)]
    rw [tryExpand_nil_of e (lowerStr s0) r k st et re p1 p2 p3 hlt]

/-- Claim C8 (corrected): for an unrecognized pattern the loop builds the
first instance and then halts, so expansion returns exactly that one instance
- but only when building that instance cannot itself raise: the master needs a
truthy `iCalUld` or a string `title` (`idSafe`).  Otherwise line 96's
`.lower()` raises and the whole expansion falls back to `[event]`
(see the counterexample). -/
theorem claim8_test (e : ER) (r : Nat → String) (k : Nat) (s0 : String)
    (hrec : lookupD e "recurrence" (.vstr "") = .vstr s0)
    (hne : lowerStr s0 ≠ "none") (hne2 : lowerStr s0 ≠ "")
    (hnd : lowerStr s0 ≠ "daily") (hnw : lowerStr s0 ≠ "weekly")
    (hnm : lowerStr s0 ≠ "monthly") (hny : lowerStr s0 ≠ "yearly")
    (st et re : Nat)
    (hst : pyParse (lookupD e "startTime" (.vstr "")) = .ok (some st))
    (het : pyParse (lookupD e "endTime" (.vstr "")) = .ok (some et))
    (hre : pyParse (lookupD e "recurrenceEndDate" (.vstr "")) = .ok (some re))
    (hle : st ≤ re) (hsafe : idSafe e = true) :
    ∃ inst k', generate e r k = (.ok [inst], k') ∧
      lookupER inst "isRecurringInstance" = some (.vbool true) ∧
      lookupER inst "startTime" = some (.vstr (renderDT st ++
        tzSuffix (strOfValue (lookupD e "startTime" (.vstr ""))))) := by
  have hstep : stepPat (lowerStr s0) st = .ok none := by
    unfold stepPat
    rw [if_neg hnw, if_neg hnd, if_neg hnm, if_neg hny]
  have haddm : addM st ((et : Int) - (st : Int)) = .ok et :=
    addM_exact st et (pyParse_some _ _ het).1
  obtain ⟨inst, k1, hbody, hmark, hstart, hend⟩ :=
    instBody_ok_of e (tzSuffix (strOfValue (lookupD e "startTime" (.vstr "")))) st
      ((et : Int) - (st : Int)) r k et haddm hsafe
  have htry : tryExpand e (lowerStr s0) r k = (.ok [inst], k1) := by
    simp only [tryExpand]
    rw [hst, het, hre]
    dsimp only
    rw [show (100 : Nat) = 99 + 1 from rfl]
    unfold loopGo
    rw [if_pos hle, hbody]
    dsimp only
    rw [hstep]
    rfl
  refine ⟨inst, k1, ?_, hmark, hstart⟩
  unfold generate
  rw [hrec]
  dsimp only
  rw [if_neg (by push_neg; exact ⟨hne, hne2⟩)]
  rw [if_pos (by
    rw [truthy_of_parse _ _ hst, truthy_of_parse _ _ het, truthy_of_parse _ _ hre]; rfl)]
  rw [htry]

/-- Claim C4 (corrected): instances are serialized without fractional
seconds, so the re-parsed instance duration equals the master duration only
when that duration is a whole number of seconds (`durM % 1000000 = 0`); with
that proviso every produced instance satisfies
endTime - startTime = master.endTime - master.startTime. -/
theorem claim4_test (e : ER) (pat : String) (r : Nat → String) (k k' : Nat) (L : List ER)
    (st et : Nat)
    (hst : pyParse (lookupD e "startTime" (.vstr "")) = .ok (some st))
    (het : pyParse (lookupD e "endTime" (.vstr "")) = .ok (some et))
    (hdur : ((et : Int) - (st : Int)) % 1000000 = 0)
    (h : tryExpand e pat r k = (.ok L, k')) :
    ∀ inst ∈ L, reDiff inst = some ((et : Int) - (st : Int)) := by
  obtain ⟨st2, et2, re2, hst2, het2, hre2, hloop⟩ := tryExpand_ok _ _ _ _ _ _ h
  rw [hst] at hst2
  rw [het] at het2
  simp only [Except.ok.injEq, Option.some.injEq] at hst2 het2
  subst hst2
  subst het2
  intro inst hi
  have hcur0 : st < maxMicros := (pyParse_some _ _ hst).1
  have hios := loopGo_instOk e (tzSuffix (strOfValue (lookupD e "startTime" (.vstr "")))) pat
    ((et : Int) - (st : Int)) re2 100 st [] r k L hcur0 (by simp) (by rw [hloop])
  exact instOk_reDiff _ _ inst (lookupD e "startTime" (.vstr "")) rfl (hios inst hi) hdur

/-- Claim C6: every generated instance's serialized `startTime` and
`endTime` both end with the timezone literal captured from the master's
`startTime` (its `+HH:MM` offset if present, else `Z` if present, else
`+00:00`), re-attached verbatim. -/
theorem claim6_test (e : ER) (pat : String) (r : Nat → String) (k k' : Nat) (L : List ER)
    (h : tryExpand e pat r k = (.ok L, k')) :
    ∀ inst ∈ L, ∃ b1 b2,
      lookupER inst "startTime" = some (.vstr (b1 ++
        tzSuffix (strOfValue (lookupD e "startTime" (.vstr ""))))) ∧
      lookupER inst "endTime" = some (.vstr (b2 ++
        tzSuffix (strOfValue (lookupD e "startTime" (.vstr ""))))) := by
  obtain ⟨st, et, re, hst, het, hre, hloop⟩ := tryExpand_ok _ _ _ _ _ _ h
  have hcur0 : st < maxMicros := (pyParse_some _ _ hst).1
  have hios := loopGo_instOk e (tzSuffix (strOfValue (lookupD e "startTime" (.vstr "")))) pat
    ((et : Int) - (st : Int)) re 100 st [] r k L hcur0 (by simp) (by rw [hloop])
  intro inst hi
  obtain ⟨cur, instEnd, _, _, h1, h2⟩ := hios inst hi
  exact ⟨renderDT cur, renderDT instEnd, h1, h2⟩

/-- `recurrence` is absent or lowers to nothing/none, so the batch passes the
record through unchanged. -/
def nonRecurring (e : ER) : Bool :=
  match lookupD e "recurrence" (.vstr "") with
  | .vstr s0 => lowerStr s0 = "" || lowerStr s0 = "none"
  | _ => false

theorem expandAll_dict (e : ER) (rest : List InEntry) (r : Nat → String) (k : Nat) :
    expandAll (InEntry.dict e :: rest) r k =
      (if e = ([] : ER) then expandAll rest r k
       else
         match lookupD e "recurrence" (.vstr "") with
         | .vstr s0 =>
           if !(lowerStr s0 = "") && !(lowerStr s0 = "none") then
             match generate e r k with
             | (.ok L, k1) =>
               match expandAll rest r k1 with
               | (.ok L2, k2) => (.ok (L ++ L2), k2)
               | (.error u, k2) => (.error u, k2)
             | (.error u, k1) => (.error u, k1)
           else
             match expandAll rest r k with
             | (.ok L2, k2) => (.ok (e :: L2), k2)
             | (.error u, k2) => (.error u, k2)
         | _ => (.error (), k)) := rfl

/-- Claim C3 (corrected): the per-master `try/except` of
`generate_recurring_instances` does isolate failures, but
`expand_calendar_events` itself calls `.lower()` on the raw `recurrence` value
outside any handler, so a record whose `recurrence` is not a string aborts the
whole batch.  Under the `recOk` hypothesis (every dict record's `recurrence`
is absent or a string) the batch always succeeds, and every non-empty
non-recurring dict record survives into the output. -/
theorem claim3_test (input : List InEntry) (r : Nat → String) :
    ∀ k : Nat, (∀ e, InEntry.dict e ∈ input → recOk e = true) →
    (∃ L k', expandAll input r k = (.ok L, k')) ∧
    (∀ e, InEntry.dict e ∈ input → e ≠ ([] : ER) → nonRecurring e = true →
      ∀ L k', expandAll input r k = (.ok L, k') → e ∈ L) := by
  induction input with
  | nil =>
    intro k hrec
    refine ⟨⟨[], k, rfl⟩, ?_⟩
    intro e he
    simp at he
  | cons entry rest ih =>
    intro k hrec
    cases entry with
    | nondict =>
      have hrec' : ∀ e, InEntry.dict e ∈ rest → recOk e = true := by
        intro e he
        exact hrec e (by simp [he])
      obtain ⟨⟨L, k2, hL⟩, hmem⟩ := ih k hrec'
      refine ⟨⟨L, k2, by unfold expandAll; exact hL⟩, ?_⟩
      intro e he hne hnr L2 k3 h2
      have he' : InEntry.dict e ∈ rest := by
        rcases List.mem_cons.mp he with hx | hx
        · cases hx
        · exact hx
      exact hmem e he' hne hnr L2 k3 (by unfold expandAll at h2; exact h2)
    | dict e0 =>
      have hrec' : ∀ e, InEntry.dict e ∈ rest → recOk e = true := by
        intro e he
        exact hrec e (by simp [he])
      have hrec0 : recOk e0 = true := hrec e0 (by simp)
      by_cases hnil0 : e0 = ([] : ER)
      · obtain ⟨⟨L, k2, hL⟩, hmem⟩ := ih k hrec'
        refine ⟨⟨L, k2, by rw [expandAll_dict, if_pos hnil0]; exact hL⟩, ?_⟩
        intro e he hne hnr L2 k3 h2
        have he' : InEntry.dict e ∈ rest := by
          rcases List.mem_cons.mp he with hx | hx
          · injection hx with hx2
            exact absurd (hx2 ▸ hnil0) hne
          · exact hx
        refine hmem e he' hne hnr L2 k3 ?_
        rw [expandAll_dict, if_pos hnil0] at h2
        exact h2
      · cases hre : lookupER e0 "recurrence" with
        | none =>
          have hld : lookupD e0 "recurrence" (.vstr "") = .vstr "" := by
            unfold lookupD; rw [hre]; rfl
          obtain ⟨⟨L, k2, hL⟩, hmem⟩ := ih k hrec'
          have hstep : expandAll (InEntry.dict e0 :: rest) r k =
              (match expandAll rest r k with
               | (.ok L2, k2) => (.ok (e0 :: L2), k2)
               | (.error u, k2) => (.error u, k2)) := by
            rw [expandAll_dict, if_neg hnil0, hld]
            dsimp only
            rw [if_neg (by decide)]
          refine ⟨⟨e0 :: L, k2, by rw [hstep, hL]⟩, ?_⟩
          intro e he hne hnr L2 k3 h2
          rw [hstep, hL] at h2
          dsimp only at h2
          simp only [Prod.mk.injEq, Except.ok.injEq] at h2
          rcases List.mem_cons.mp he with hx | hx
          · injection hx with hx2
            subst hx2
            rw [← h2.1]
            simp
          · have := hmem e hx hne hnr L k2 hL
            rw [← h2.1]
            simp [this]
        | some v =>
          have hbad : ∀ w, v = w → lookupER e0 "recurrence" = some w →
              (match w with
               | Value.vstr _ => True
               | _ => False) := by
            intro w hw hw2
            unfold recOk at hrec0
            rw [hw2] at hrec0
            cases w with
            | vstr s => trivial
            | vint n => exact absurd hrec0 (by dsimp only; decide)
            | vbool b => exact absurd hrec0 (by dsimp only; decide)
            | vnull => exact absurd hrec0 (by dsimp only; decide)
          cases v with
          | vint n => exact absurd (hbad _ rfl hre) (by dsimp only; exact id)
          | vbool b => exact absurd (hbad _ rfl hre) (by dsimp only; exact id)
          | vnull => exact absurd (hbad _ rfl hre) (by dsimp only; exact id)
          | vstr s0 =>
            have hld : lookupD e0 "recurrence" (.vstr "") = .vstr s0 := by
              unfold lookupD; rw [hre]; rfl
            by_cases hnr0 : (!(lowerStr s0 = "") && !(lowerStr s0 = "none")) = true
            · obtain ⟨Lg, kg, hg⟩ := gen_total e0 r k hrec0
              obtain ⟨⟨L, k2, hL⟩, hmem⟩ := ih kg hrec'
              have hstep : expandAll (InEntry.dict e0 :: rest) r k =
                  (match expandAll rest r kg with
                   | (.ok L2, k2) => (.ok (Lg ++ L2), k2)
                   | (.error u, k2) => (.error u, k2)) := by
                rw [expandAll_dict, if_neg hnil0, hld]
                dsimp only
                rw [if_pos hnr0, hg]
              refine ⟨⟨Lg ++ L, k2, by rw [hstep, hL]⟩, ?_⟩
              intro e he hne hnr L2 k3 h2
              rw [hstep, hL] at h2
              dsimp only at h2
              simp only [Prod.mk.injEq, Except.ok.injEq] at h2
              rcases List.mem_cons.mp he with hx | hx
              · injection hx with hx2
                subst hx2
                unfold nonRecurring at hnr
                rw [hld] at hnr
                simp only [Bool.and_eq_true, Bool.not_eq_true', decide_eq_false_iff_not] at hnr0
                simp only [Bool.or_eq_true, decide_eq_true_eq] at hnr
                rcases hnr with hnr | hnr
                · exact absurd hnr hnr0.1
                · exact absurd hnr hnr0.2
              · have := hmem e hx hne hnr L k2 hL
                rw [← h2.1]
                simp [this]
            · obtain ⟨⟨L, k2, hL⟩, hmem⟩ := ih k hrec'
              have hstep : expandAll (InEntry.dict e0 :: rest) r k =
                  (match expandAll rest r k with
                   | (.ok L2, k2) => (.ok (e0 :: L2), k2)
                   | (.error u, k2) => (.error u, k2)) := by
                rw [expandAll_dict, if_neg hnil0, hld]
                dsimp only
                rw [if_neg hnr0]
              refine ⟨⟨e0 :: L, k2, by rw [hstep, hL]⟩, ?_⟩
              intro e he hne hnr L2 k3 h2
              rw [hstep, hL] at h2
              dsimp only at h2
              simp only [Prod.mk.injEq, Except.ok.injEq] at h2
              rcases List.mem_cons.mp he with hx | hx
              · injection hx with hx2
                subst hx2
                rw [← h2.1]
                simp
              · have := hmem e hx hne hnr L k2 hL
                rw [← h2.1]
                simp [this]

def rA : Nat → String := fun n => String.mk (List.replicate (n + 1) 'x')

def masterC1 : ER := [("title", Value.vstr "Standup"),
  ("startTime", Value.vstr "2025-07-01T09:00:00+00:00"),
  ("endTime", Value.vstr "2025-07-01T10:00:00+00:00"),
  ("recurrence", Value.vstr "weekly"),
  ("recurrenceEndDate", Value.vstr "2025-07-22"),
  ("iCalUld", Value.vstr "ev1")]

def C1L : List ER := match (generate masterC1 rA 0).1 with | .ok L => L | .error _ => []

/-- Claim C1: the spec says the weekly event from 2025-07-01T09:00:00+00:00 to
10:00:00 with recurrenceEndDate 2025-07-22 yields exactly 4 instances dated
07-01, 07-08, 07-15 and 07-22.  In fact line 74 compares `current` (which
carries the 09:00 time of day) against the end date parsed as midnight, so the
07-22 occurrence is excluded: the expansion yields exactly 3 instances, dated
07-01, 07-08 and 07-15, each spanning one hour. -/
theorem claim1_test :
    C1L.length = 3 ∧
    C1L.map (fun i => lookupD i "startTime" Value.vnull) =
      [Value.vstr "2025-07-01T09:00:00+00:00", Value.vstr "2025-07-08T09:00:00+00:00",
       Value.vstr "2025-07-15T09:00:00+00:00"] ∧
    C1L.map reDiff = [some 3600000000, some 3600000000, some 3600000000] :=
  ⟨rfl, rfl, rfl⟩

theorem claim1_cex : decide (C1L.length = 4) = false := by rfl

def m10 : ER := [("title", Value.vstr "Standup"),
  ("startTime", Value.vstr "2025-07-01T09:00:00+00:00"),
  ("endTime", Value.vstr "2025-07-01T10:00:00+00:00"),
  ("recurrence", Value.vstr "daily"),
  ("recurrenceEndDate", Value.vstr "2025-07-03")]

def C10L : List ER := match (generate m10 rA 0).1 with | .ok L => L | .error _ => []

/-- Claim C10: the `recurringMasterId` default `f"master_\x7buuid4()...\x7d"`
is evaluated freshly on every `event.get` call, so a uid-less master's
instances can carry different `recurringMasterId` values (first conjunct: a
concrete two-instance master whose instances' ids differ), while a master with
an `iCalUld` key gives every instance that same value (second conjunct). -/
theorem claim10_test :
    ((C10L.map (fun i => lookupD i "recurringMasterId" Value.vnull) =
        [Value.vstr "master_xx", Value.vstr "master_xxxx"]) ∧
      Value.vstr "master_xx" ≠ Value.vstr "master_xxxx") ∧
    (∀ (e : ER) (v : Value) (pat : String) (r : Nat → String) (k k' : Nat) (L : List ER),
      lookupER e "iCalUld" = some v →
      tryExpand e pat r k = (.ok L, k') →
      ∀ i1 ∈ L, ∀ i2 ∈ L,
        lookupER i1 "recurringMasterId" = lookupER i2 "recurringMasterId") := by
  constructor
  · exact ⟨rfl, by decide⟩
  · intro e v pat r k k' L hpres h i1 h1 i2 h2
    obtain ⟨st, et, re, hst, het, hre, hloop⟩ := tryExpand_ok _ _ _ _ _ _ h
    have hall := loopGo_rmid e (tzSuffix (strOfValue (lookupD e "startTime" (.vstr "")))) pat
      ((et : Int) - (st : Int)) re v hpres 100 st [] r k L
      (by intro i hi; simp at hi) (by rw [hloop])
    rw [hall i1 h1, hall i2 h2]

def c2e : ER := [("title", Value.vstr "T"),
  ("startTime", Value.vstr "2025-07-10T09:00:00Z"),
  ("endTime", Value.vstr "2025-07-10T10:00:00Z"),
  ("recurrence", Value.vstr "daily"),
  ("recurrenceEndDate", Value.vstr "2025-07-01"),
  ("iCalUld", Value.vstr "u")]

theorem claim2_cex : (generate c2e rA 0).1 = .ok [] := by rfl

theorem claim2_witness :
    (∃ L, (generate c2e rA 0).1 = .ok L) ∧
    ((generate c2e rA 0).1 = .ok [] ↔
      (isRecurring c2e ∧ ∃ st et re,
        pyParse (lookupD c2e "startTime" (.vstr "")) = .ok (some st) ∧
        pyParse (lookupD c2e "endTime" (.vstr "")) = .ok (some et) ∧
        pyParse (lookupD c2e "recurrenceEndDate" (.vstr "")) = .ok (some re) ∧ re < st)) :=
  claim2_test c2e rA 0 (by decide)

def badBatch : List InEntry := [InEntry.dict [("recurrence", Value.vint 5), ("x", Value.vstr "a")],
  InEntry.dict [("title", Value.vstr "ok")]]

theorem claim3_cex : (expandAll badBatch rA 0).1 = .error () := by rfl

def okBatch : List InEntry := [InEntry.nondict, InEntry.dict [("title", Value.vstr "a")]]

theorem claim3_witness :
    (∃ L k', expandAll okBatch rA 0 = (.ok L, k')) ∧
    (∀ e, InEntry.dict e ∈ okBatch → e ≠ ([] : ER) → nonRecurring e = true →
      ∀ L k', expandAll okBatch rA 0 = (.ok L, k') → e ∈ L) :=
  claim3_test okBatch rA 0 (by
    intro e he
    rcases List.mem_cons.mp he with hx | hx
    · cases hx
    · rcases List.mem_cons.mp hx with hy | hy
      · injection hy with hy2
        subst hy2
        decide
      · cases hy)

def c4e : ER := [("title", Value.vstr "T"),
  ("startTime", Value.vstr "2025-07-01T09:00:00.100000"),
  ("endTime", Value.vstr "2025-07-01T10:00:00.600000"),
  ("recurrence", Value.vstr "daily"),
  ("recurrenceEndDate", Value.vstr "2025-07-02"),
  ("iCalUld", Value.vstr "u")]

theorem claim4_cex :
    (match (generate c4e rA 0).1 with | .ok L => L.map reDiff | .error _ => []) =
      [some 3600000000] ∧
    reDiff c4e = some 3600500000 ∧
    decide ((match (generate c4e rA 0).1 with | .ok L => L.map reDiff | .error _ => []) =
      [reDiff c4e]) = false :=
  ⟨rfl, rfl, rfl⟩

def c4w : ER := [("title", Value.vstr "T"),
  ("startTime", Value.vstr "2025-07-01T09:00:00Z"),
  ("endTime", Value.vstr "2025-07-01T10:00:00Z"),
  ("recurrenceEndDate", Value.vstr "2025-07-02"),
  ("iCalUld", Value.vstr "u")]

def C4wL : List ER := match (tryExpand c4w "daily" rA 0).1 with | .ok L => L | .error _ => []

def c4i : ER := C4wL.getD 0 []

theorem claim4_witness :
    reDiff c4i = some ((63886960800000000 : Int) - (63886957200000000 : Int)) :=
  claim4_test c4w "daily" rA 0 (tryExpand c4w "daily" rA 0).2 C4wL
    63886957200000000 63886960800000000 (by rfl) (by rfl) (by decide) (by rfl)
    c4i (by rw [show C4wL = [c4i] from rfl]; exact List.mem_singleton.mpr rfl)

def c5w : ER := [("recurrence", Value.vstr "none"), ("title", Value.vstr "t")]

theorem claim5_witness : ([c5w] : List ER).length ≤ 100 :=
  claim5_test c5w rA 5 [c5w] 5 (by rfl)

def c6w : ER := [("title", Value.vstr "T"),
  ("startTime", Value.vstr "2025-07-10T09:00:00Z"),
  ("endTime", Value.vstr "2025-07-10T10:00:00Z"),
  ("recurrenceEndDate", Value.vstr "2025-07-11"),
  ("iCalUld", Value.vstr "u")]

def C6wL : List ER := match (tryExpand c6w "daily" rA 0).1 with | .ok L => L | .error _ => []

def c6i : ER := C6wL.getD 0 []

theorem claim6_witness :
    ∃ b1 b2,
      lookupER c6i "startTime" = some (.vstr (b1 ++
        tzSuffix (strOfValue (lookupD c6w "startTime" (.vstr ""))))) ∧
      lookupER c6i "endTime" = some (.vstr (b2 ++
        tzSuffix (strOfValue (lookupD c6w "startTime" (.vstr ""))))) :=
  claim6_test c6w "daily" rA 0 (tryExpand c6w "daily" rA 0).2 C6wL (by rfl)
    c6i (by rw [show C6wL = [c6i] from rfl]; exact List.mem_singleton.mpr rfl)

def c7w : ER := [("recurrence", Value.vstr "None"), ("title", Value.vstr "t")]

theorem claim7_witness : generate c7w rA 0 = (.ok [c7w], 0) :=
  claim7_test c7w rA 0 (by decide)

def c8e : ER := [("title", Value.vint 5),
  ("startTime", Value.vstr "2025-07-01T09:00:00Z"),
  ("endTime", Value.vstr "2025-07-01T10:00:00Z"),
  ("recurrence", Value.vstr "fortnightly"),
  ("recurrenceEndDate", Value.vstr "2025-07-22")]

theorem claim8_cex :
    (generate c8e rA 0).1 = .ok [c8e] ∧ lookupER c8e "isRecurringInstance" = none :=
  ⟨rfl, rfl⟩

def c8w : ER := [("title", Value.vstr "Review"),
  ("startTime", Value.vstr "2025-07-01T09:00:00Z"),
  ("endTime", Value.vstr "2025-07-01T10:00:00Z"),
  ("recurrence", Value.vstr "fortnightly"),
  ("recurrenceEndDate", Value.vstr "2025-07-22"),
  ("iCalUld", Value.vstr "u")]

theorem claim8_witness :
    ∃ inst k', generate c8w rA 0 = (.ok [inst], k') ∧
      lookupER inst "isRecurringInstance" = some (Value.vbool true) ∧
      lookupER inst "startTime" = some (.vstr (renderDT 63886957200000000 ++
        tzSuffix (strOfValue (lookupD c8w "startTime" (.vstr ""))))) :=
  claim8_test c8w rA 0 "fortnightly" (by rfl) (by decide) (by decide) (by decide) (by decide)
    (by decide) (by decide) 63886957200000000 63886960800000000 63888739200000000
    (by rfl) (by rfl) (by rfl) (by decide) (by decide)


theorem isPrefixOf_iff (p l : List Char) : p.isPrefixOf l = true ↔ ∃ t, l = p ++ t := by
  rw [List.isPrefixOf_iff_prefix]
  constructor
  · rintro ⟨t, ht⟩
    exact ⟨t, ht.symm⟩
  · rintro ⟨t, ht⟩
    exact ⟨t, ht.symm⟩

theorem prefixOf_length_le {p l : List Char} (h : p.isPrefixOf l = true) :
    p.length ≤ l.length := by
  obtain ⟨t, ht⟩ := (isPrefixOf_iff p l).mp h
  subst ht
  simp

theorem prefixOf_take {p l : List Char} (n : Nat) (h : p.isPrefixOf l = true)
    (hn : p.length ≤ n) : p.isPrefixOf (l.take n) = true := by
  obtain ⟨t, ht⟩ := (isPrefixOf_iff p l).mp h
  subst ht
  rw [isPrefixOf_iff]
  exact ⟨t.take (n - p.length), by
    rw [List.take_append_eq_append_take, List.take_of_length_le hn]⟩

theorem prefixOf_of_append_fit {p l1 l2 : List Char} (h : p.isPrefixOf (l1 ++ l2) = true)
    (hlen : p.length ≤ l1.length) : p.isPrefixOf l1 = true := by
  obtain ⟨t, ht⟩ := (isPrefixOf_iff p (l1 ++ l2)).mp h
  rw [isPrefixOf_iff]
  refine ⟨l1.drop p.length, ?_⟩
  have h1 : (l1 ++ l2).take p.length = p := by
    rw [ht]
    simp
  have h2 : l1.take p.length = p := by
    rw [← h1, List.take_append_eq_append_take, Nat.sub_eq_zero_of_le hlen]
    simp
  calc l1 = l1.take p.length ++ l1.drop p.length := (List.take_append_drop _ _).symm
    _ = p ++ l1.drop p.length := by rw [h2]

theorem firstIdxR_isPrefix (pat : List Char) :
    ∀ (text : List Char) (m : Nat), firstIdxR pat text = some m →
      pat.isPrefixOf (text.drop m) = true := by
  intro text
  induction text with
  | nil =>
    intro m h
    simp [firstIdxR] at h
  | cons c cs ih =>
    intro m h
    unfold firstIdxR at h
    split at h
    · rename_i hpre
      simp only [Option.some.injEq] at h
      subst h
      exact hpre
    · rcases m with _ | m
      · simp at h
      · simp only [Option.map_eq_some'] at h
        obtain ⟨m2, hm2, hm2e⟩ := h
        have h3 : m2 = m := by omega
        rw [List.drop_succ_cons, ← h3]
        exact ih m2 hm2

theorem firstIdxR_min (pat : List Char) :
    ∀ (text : List Char) (m : Nat), firstIdxR pat text = some m →
      ∀ j, j < m → pat.isPrefixOf (text.drop j) = false := by
  intro text
  induction text with
  | nil =>
    intro m h
    simp [firstIdxR] at h
  | cons c cs ih =>
    intro m h j hj
    unfold firstIdxR at h
    split at h
    · simp only [Option.some.injEq] at h
      exfalso
      omega
    · rename_i hpre
      rcases m with _ | m
      · simp at h
      · simp only [Option.map_eq_some'] at h
        obtain ⟨m2, hm2, hm2e⟩ := h
        rcases j with _ | j
        · rw [List.drop_zero]
          exact Bool.eq_false_iff.mpr hpre
        · rw [List.drop_succ_cons]
          exact ih m2 hm2 j (by omega)

theorem firstIdxR_none (pat : List Char) (hpat : pat ≠ []) :
    ∀ (text : List Char), firstIdxR pat text = none →
      ∀ j, pat.isPrefixOf (text.drop j) = false := by
  intro text
  induction text with
  | nil =>
    intro h j
    rcases pat with _ | ⟨p, ps⟩
    · exact absurd rfl hpat
    · simp [List.isPrefixOf]
  | cons c cs ih =>
    intro h j
    unfold firstIdxR at h
    split at h
    · simp at h
    · rename_i hpre
      simp only [Option.map_eq_none'] at h
      rcases j with _ | j
      · rw [List.drop_zero]
        exact Bool.eq_false_iff.mpr hpre
      · rw [List.drop_succ_cons]
        exact ih h j

theorem firstIdxR_isSome (pat : List Char) (hpat : pat ≠ []) :
    ∀ (text : List Char) (j : Nat), pat.isPrefixOf (text.drop j) = true →
      ∃ m, m ≤ j ∧ firstIdxR pat text = some m := by
  intro text
  induction text with
  | nil =>
    intro j h
    rcases pat with _ | ⟨p, ps⟩
    · exact absurd rfl hpat
    · rw [List.drop_nil] at h
      simp [List.isPrefixOf] at h
  | cons c cs ih =>
    intro j h
    by_cases hpre : pat.isPrefixOf (c :: cs) = true
    · exact ⟨0, Nat.zero_le _, by unfold firstIdxR; rw [if_pos hpre]⟩
    · rcases j with _ | j
      · rw [List.drop_zero] at h
        exact absurd h hpre
      · rw [List.drop_succ_cons] at h
        obtain ⟨m, hm, hme⟩ := ih j h
        refine ⟨m + 1, by omega, ?_⟩
        unfold firstIdxR
        rw [if_neg hpre, hme]
        rfl

theorem lastIdxAux_eq (pat text : List Char) (p : Nat)
    (hp : pat.isPrefixOf (text.drop p) = true) :
    ∀ n, p ≤ n → (∀ q, p < q → q ≤ n → pat.isPrefixOf (text.drop q) = false) →
      lastIdxAux pat text n = some p := by
  intro n
  induction n with
  | zero =>
    intro hpn _
    have hp0 : p = 0 := by omega
    subst hp0
    unfold lastIdxAux
    rw [List.drop_zero] at hp
    rw [if_pos hp]
  | succ n ih =>
    intro hpn hmax
    unfold lastIdxAux
    by_cases hq : p = n + 1
    · subst hq
      rw [if_pos hp]
    · rw [if_neg (by
        rw [hmax (n + 1) (by omega) (le_refl _)]
        simp)]
      exact ih (by omega) (fun q h1 h2 => hmax q h1 (by omega))

theorem lastIdx_eq (pat text : List Char) (p : Nat) (hpat : pat ≠ [])
    (hp : pat.isPrefixOf (text.drop p) = true)
    (hmax : ∀ q, p < q → pat.isPrefixOf (text.drop q) = false) :
    lastIdx pat text = some p := by
  have hlen : pat.length ≤ (text.drop p).length := prefixOf_length_le hp
  have hpos : 0 < pat.length := List.length_pos.mpr hpat
  rw [List.length_drop] at hlen
  unfold lastIdx
  rw [if_pos (by omega)]
  exact lastIdxAux_eq pat text p hp (text.length - pat.length) (by omega)
    (fun q h1 _ => hmax q h1)

theorem scanEnd_flat (post : List Char) :
    ∀ (inner : List Char) (i : Nat), '[' ∉ inner → ']' ∉ inner →
      scanEnd (inner ++ ']' :: post) i 1 = i + inner.length + 1 := by
  intro inner
  induction inner with
  | nil =>
    intro i _ _
    simp only [List.nil_append, List.length_nil, Nat.add_zero]
    unfold scanEnd
    rw [if_neg (by decide), if_pos rfl, if_pos (by decide)]
  | cons c cs ih =>
    intro i h1 h2
    have hc1 : ¬ (c = '[') := fun h => h1 (by simp [h])
    have hc2 : ¬ (c = ']') := fun h => h2 (by simp [h])
    show scanEnd (c :: (cs ++ ']' :: post)) i 1 = i + (cs.length + 1) + 1
    unfold scanEnd
    rw [if_neg hc1, if_neg hc2]
    rw [ih (i + 1) (fun h => h1 (by simp [h])) (fun h => h2 (by simp [h]))]
    omega

theorem prefixOf_append_extend {p l1 : List Char} (l2 : List Char)
    (h : p.isPrefixOf l1 = true) : p.isPrefixOf (l1 ++ l2) = true := by
  obtain ⟨t, ht⟩ := (isPrefixOf_iff p l1).mp h
  subst ht
  rw [isPrefixOf_iff]
  exact ⟨t ++ l2, by simp⟩

theorem prefixOf_head_mem {c : Char} {p l : List Char} (h : (c :: p).isPrefixOf l = true) :
    c ∈ l := by
  obtain ⟨t, ht⟩ := (isPrefixOf_iff _ _).mp h
  subst ht
  simp

theorem extract_pure (content : List Char) (h : pureBranch content = true) :
    extract content = .ok content := by
  unfold extract
  rw [if_pos h]

theorem marker_first_in_array (pre inner post content : List Char) (j : Nat)
    (hcontent : content = pre ++ '[' :: (inner ++ ']' :: post))
    (hpre2 : firstIdxR markerL pre = none)
    (hj : markerL.isPrefixOf (inner.drop j) = true) :
    ∃ m, pre.length + 1 ≤ m ∧ m ≤ pre.length + 1 + j ∧ j + 11 ≤ inner.length ∧
      firstIdxR markerL content = some m := by
  have hjlen : markerL.length ≤ (inner.drop j).length := prefixOf_length_le hj
  rw [List.length_drop] at hjlen
  have hmlen : markerL.length = 11 := by decide
  have hjin : j + 11 ≤ inner.length := by omega
  have hdropc : content.drop (pre.length + 1 + j) = inner.drop j ++ (']' :: post) := by
    rw [hcontent, List.drop_append_eq_append_drop, List.drop_eq_nil_of_le (by omega),
      List.nil_append, show pre.length + 1 + j - pre.length = j + 1 from by omega,
      List.drop_succ_cons, List.drop_append_eq_append_drop,
      Nat.sub_eq_zero_of_le (by omega), List.drop_zero]
  have hocc : markerL.isPrefixOf (content.drop (pre.length + 1 + j)) = true := by
    rw [hdropc]
    exact prefixOf_append_extend _ hj
  obtain ⟨m, hmle, hm⟩ := firstIdxR_isSome markerL (by decide) content _ hocc
  refine ⟨m, ?_, hmle, hjin, hm⟩
  by_contra hlt
  push_neg at hlt
  have hmocc : markerL.isPrefixOf (content.drop m) = true := firstIdxR_isPrefix _ _ _ hm
  rcases Nat.lt_or_ge (m + 11) (pre.length + 1) with hcase | hcase
  · -- the occurrence would lie wholly inside `pre`
    have hdrop : content.drop m = pre.drop m ++ ('[' :: (inner ++ ']' :: post)) := by
      rw [hcontent, List.drop_append_eq_append_drop,
        Nat.sub_eq_zero_of_le (by omega), List.drop_zero]
    rw [hdrop] at hmocc
    have hfit : markerL.isPrefixOf (pre.drop m) = true :=
      prefixOf_of_append_fit hmocc (by rw [List.length_drop, hmlen]; omega)
    have := firstIdxR_none markerL (by decide) pre hpre2 m
    rw [hfit] at this
    cases this
  · -- the occurrence would cover the '[' that opens the array
    have hdrop : content.drop m = pre.drop m ++ ('[' :: (inner ++ ']' :: post)) := by
      rw [hcontent, List.drop_append_eq_append_drop,
        Nat.sub_eq_zero_of_le (by omega), List.drop_zero]
    obtain ⟨t, ht⟩ := (isPrefixOf_iff _ _).mp hmocc
    rw [hdrop] at ht
    have hL : (pre.drop m).length = pre.length - m := List.length_drop _ _
    have hLlt : pre.length - m < 11 := by omega
    have h11 : (pre.drop m ++ '[' :: (inner ++ ']' :: post)).take markerL.length = markerL := by
      rw [ht, List.take_left]
    have hmem : '[' ∈ markerL := by
      rw [← h11, List.take_append_eq_append_take]
      refine List.mem_append.mpr (Or.inr ?_)
      obtain ⟨k, hk⟩ : ∃ k, markerL.length - (pre.drop m).length = k + 1 :=
        ⟨markerL.length - (pre.drop m).length - 1, by rw [hL, hmlen]; omega⟩
      rw [hk, List.take_succ_cons]
      exact List.mem_cons_self _ _
    exact absurd hmem (by decide)

theorem window_lastIdx (pre inner post content : List Char) (m : Nat)
    (hcontent : content = pre ++ '[' :: (inner ++ ']' :: post))
    (hpre1 : '[' ∉ pre) (hin1 : '[' ∉ inner)
    (hhead : pat1L.isPrefixOf ('[' :: inner) = true)
    (hm1 : pre.length + 1 ≤ m) (hm2 : m + 10 ≤ pre.length + inner.length) :
    lastIdx pat1L (content.take (m + 10)) = some pre.length := by
  have e1 : content.take (m + 10) =
      pre.take (m + 10) ++ ('[' :: (inner ++ ']' :: post)).take (m + 10 - pre.length) := by
    rw [hcontent, List.take_append_eq_append_take]
  have e3 : (inner ++ ']' :: post).take (m + 9 - pre.length) =
      inner.take (m + 9 - pre.length) ++ (']' :: post).take (m + 9 - pre.length - inner.length) := by
    rw [List.take_append_eq_append_take]
  have e4 : m + 9 - pre.length - inner.length = 0 := by omega
  have hwin : content.take (m + 10) = pre ++ '[' :: inner.take (m + 9 - pre.length) := by
    rw [e1, List.take_of_length_le (show pre.length ≤ m + 10 from by omega),
      show m + 10 - pre.length = (m + 9 - pre.length) + 1 from by omega,
      List.take_succ_cons, e3, e4, List.take_zero, List.append_nil]
  rw [hwin]
  apply lastIdx_eq pat1L _ pre.length (by decide)
  · rw [List.drop_append_eq_append_drop, List.drop_length, Nat.sub_self, List.drop_zero,
      List.nil_append]
    have h9 : pat1L.isPrefixOf (('[' :: inner).take ((m + 9 - pre.length) + 1)) = true :=
      prefixOf_take _ hhead (by rw [show pat1L.length = 10 from by decide]; omega)
    rw [List.take_succ_cons] at h9
    exact h9
  · intro q hq
    rw [Bool.eq_false_iff]
    intro hbad
    obtain ⟨i, hi⟩ : ∃ i, q = pre.length + 1 + i := ⟨q - pre.length - 1, by omega⟩
    subst hi
    have hdropq : (pre ++ '[' :: inner.take (m + 9 - pre.length)).drop (pre.length + 1 + i) =
        (inner.take (m + 9 - pre.length)).drop i := by
      rw [List.drop_append_eq_append_drop, List.drop_eq_nil_of_le (by omega),
        List.nil_append, show pre.length + 1 + i - pre.length = i + 1 from by omega,
        List.drop_succ_cons]
    rw [hdropq] at hbad
    rw [show pat1L = '[' :: "\x7b\"title\":".data from rfl] at hbad
    have : '[' ∈ (inner.take (m + 9 - pre.length)).drop i :=
      prefixOf_head_mem hbad
    exact hin1 (List.mem_of_mem_take (List.mem_of_mem_drop this))

theorem extract_embedded (pre inner post content : List Char) (j : Nat)
    (hcontent : content = pre ++ '[' :: (inner ++ ']' :: post))
    (hpure : pureBranch content = false)
    (hpre1 : '[' ∉ pre) (hpre2 : firstIdxR markerL pre = none)
    (hin1 : '[' ∉ inner) (hin2 : ']' ∉ inner)
    (hhead : pat1L.isPrefixOf ('[' :: inner) = true)
    (hj : markerL.isPrefixOf (inner.drop j) = true) :
    extract content = .ok ('[' :: (inner ++ [']'])) := by
  obtain ⟨m, hm1, hm2, hjin, hm⟩ :=
    marker_first_in_array pre inner post content j hcontent hpre2 hj
  have hlast : lastIdx pat1L (content.take (m + 10)) = some pre.length :=
    window_lastIdx pre inner post content m hcontent hpre1 hin1 hhead hm1 (by omega)
  have hjc : content.drop pre.length = '[' :: (inner ++ ']' :: post) := by
    rw [hcontent, List.drop_append_eq_append_drop, List.drop_length, Nat.sub_self,
      List.drop_zero, List.nil_append]
  have hscan : scanEnd ('[' :: (inner ++ ']' :: post)) 0 0 = inner.length + 2 := by
    unfold scanEnd
    rw [if_pos rfl]
    show scanEnd (inner ++ ']' :: post) 1 1 = inner.length + 2
    rw [scanEnd_flat post inner 1 hin1 hin2]
    omega
  have htake : ('[' :: (inner ++ ']' :: post)).take (inner.length + 2) =
      '[' :: (inner ++ [']']) := by
    rw [show inner.length + 2 = (inner.length + 1) + 1 from rfl, List.take_succ_cons,
      List.take_append_eq_append_take, List.take_of_length_le (by omega),
      show inner.length + 1 - inner.length = 1 from by omega]
    rfl
  unfold extract
  rw [if_neg (Bool.eq_false_iff.mp hpure), hm]
  dsimp only
  rw [hlast]
  dsimp only
  rw [hjc, hscan, htake]

def c9arr : List Char := "[\x7b\"title\":\"a\"\x7d,\x7b\"title\":\"b\"\x7d]".data

def c9embed : List Char := ("<html>ok</html>calendar: ".data) ++ c9arr ++ " done".data

def c9single : List Char := "<html>[\x7b\"title\":\"a\"\x7d]</html>".data

/-- Claim C9 (corrected): text whose stripped form starts with `[` is handed
to the parser unchanged, and an array embedded in surrounding markup is
recovered exactly - but not for arbitrary markup: the embedded branch needs the
`\x7d,\x7b"title":` boundary marker of a multi-entry array (a single-entry
array raises `ValueError`, see the counterexample), no earlier marker
occurrence in the leading markup, and no square brackets outside the array.
The last two conjuncts instantiate both branches on concrete inputs. -/
theorem claim9_test :
    (∀ content : List Char, pureBranch content = true → extract content = .ok content) ∧
    (∀ (pre inner post : List Char) (j : Nat),
      pureBranch (pre ++ '[' :: (inner ++ ']' :: post)) = false →
      '[' ∉ pre → firstIdxR markerL pre = none → '[' ∉ inner → ']' ∉ inner →
      pat1L.isPrefixOf ('[' :: inner) = true →
      markerL.isPrefixOf (inner.drop j) = true →
      extract (pre ++ '[' :: (inner ++ ']' :: post)) = .ok ('[' :: (inner ++ [']']))) ∧
    extract c9arr = .ok c9arr ∧ extract c9embed = .ok c9arr := by
  refine ⟨extract_pure, ?_, extract_pure c9arr (by rfl), by rfl⟩
  intro pre inner post j h1 h2 h3 h4 h5 h6 h7
  exact extract_embedded pre inner post _ j rfl h1 h2 h3 h4 h5 h6 h7

theorem claim9_cex : extract c9single = .error () := by rfl
